import Mathlib

/-!
# Block filesystem simulator (`filesystem.c`): allocator, format, path lookup, mkdir,
rmdir, dump and load

The partition is `fs_partition`, an array of separately allocated 1024-byte
blocks.  `fs_superblock` points at block 0 and every inode pointer is a block
cast to `inode*`, so both records are *views* of block bytes.  The embedding
keeps that aliasing: a state is the byte contents of the blocks, and the fields
of `superblock` / `inode` are read and written at their byte offsets
(`int` is 4 bytes, little endian, two's complement; neither struct has padding):

    superblock: name 0..254 | flags 255 | num_blocks 256 | root_block 260
                | num_free_blocks 264 | block_map 268..1023
    inode:      name 0..254 | flags 255 | file_size 256 | direct_refs 260..1019
                | indirect_refs 1020

What C leaves undefined is an explicit `Fault` result: a string copied past
its destination array, an index outside a declared array, a block number
outside the partition, `strcat` on `NULL`, a failed `assert`.  What C leaves
indeterminate is a parameter: the bytes `malloc` returns (`init` of `format`),
the first value of the uninitialised loop counter of `mkdir` (`i0`), and
whether plain `char` is signed (`signedChar`, which only the test
`block_map[i] == 0xFF` can see).  Two things are not modelled as faults,
because they do not touch the partition: the scratch `new_node` of `mkdir`
(allocated with `sizeof` of a pointer) is taken as a well-formed local record,
and the read of `subdirs[256]` in the loop test of `mkdir`, whose value cannot
change the test.  `printf` calls are dropped.  Strings are lists of their
bytes, terminator excluded; "/" is byte 47.

`dump_to_disk` and `load_from_disk` work on flat memory and on a file, both
sequences of bytes; the scratch `super` of `load_from_disk` (also allocated
with `sizeof` of a pointer) is again taken as well formed.  Pointers are
8 bytes where their size matters (the table `fs_partition`).
-/

namespace Filesys

deriving instance DecidableEq for Except

/-- Outcomes for which the C program has no defined result. -/
inductive Fault where
  /-- one of the two `assert`s of `format` failed -/
  | assertion
  /-- `strcpy` of a string that does not fit a 255-byte `name` field -/
  | nameField
  /-- `block_map[index]` with `index` outside `[0, 756)` -/
  | bitmapIndex (index : Int)
  /-- `strcat` past the end of `current_name[255]` -/
  | pathBuffer
  /-- `strcat(current_name, next_dir)` with `next_dir == NULL` -/
  | nullToken
  /-- `fs_partition[b]` with `b` outside the allocated partition -/
  | blockNumber (b : Int)
  /-- `subdirs[i]` read or written outside the 256 entries of a block, where it matters -/
  | childIndex (i : Int)
  deriving DecidableEq, Repr

/-- The partition: how many blocks `format` allocated, and the byte at each
(block, offset).  Block 0 is what `fs_superblock` points to. -/
structure FS where
  nblocks : Nat
  mem : Nat → Nat → Nat

def SUCCESS : Int := 0
def FAILURE : Int := 1
def BLOCK_SIZE : Nat := 1024
def WRITE : Nat := 1
def FILE_READ : Nat := 0
def FILE_WRITE : Nat := 1
def DIR_WRITE : Nat := 4

/-! ## Byte and `int` access -/

/-- The byte at `off` of block `b`. -/
def rd8 (s : FS) (b off : Nat) : Nat := s.mem b off % 256

/-- Store one byte. -/
def wr8 (s : FS) (b off v : Nat) : FS :=
  { s with mem := fun b1 o1 => if b1 = b ∧ o1 = off then v % 256 else s.mem b1 o1 }

/-- The value of a 32-bit two's complement `int` with the given residue. -/
def toInt32 (n : Int) : Int := (n + 2147483648) % 4294967296 - 2147483648

/-- Read the `int` stored at `off` of block `b` (little endian). -/
def rd32 (s : FS) (b off : Nat) : Int :=
  toInt32 ((rd8 s b off + 256 * rd8 s b (off + 1) + 65536 * rd8 s b (off + 2)
    + 16777216 * rd8 s b (off + 3) : Nat) : Int)

/-- Store an `int` at `off` of block `b` (little endian, modulo 2^32). -/
def wr32 (s : FS) (b off : Nat) (v : Int) : FS :=
  { s with mem := fun b1 o1 =>
      if b1 = b ∧ o1 = off then (v % 4294967296).toNat % 256
      else if b1 = b ∧ o1 = off + 1 then (v % 4294967296).toNat / 256 % 256
      else if b1 = b ∧ o1 = off + 2 then (v % 4294967296).toNat / 65536 % 256
      else if b1 = b ∧ o1 = off + 3 then (v % 4294967296).toNat / 16777216 % 256
      else s.mem b1 o1 }

/-- The effect of `memset(p, v, len)` where `p` is offset `off` of block `b`. -/
def fill (s : FS) (b off len v : Nat) : FS :=
  { s with mem := fun b1 o1 =>
      if b1 = b ∧ off ≤ o1 ∧ o1 < off + len then v % 256 else s.mem b1 o1 }

/-- Store the bytes `l` from offset `off` of block `b`. -/
def wrBytes (s : FS) (b off : Nat) (l : List Nat) : FS :=
  { s with mem := fun b1 o1 =>
      if b1 = b ∧ off ≤ o1 ∧ o1 < off + l.length then l.getD (o1 - off) 0 % 256
      else s.mem b1 o1 }

/-- The effect of `strcpy(dst->name, src)` for the `char name[255]` field at the start
of block `b`: the characters of `src` and the terminating NUL. -/
def strcpy_name (s : FS) (b : Nat) (src : List Nat) : Except Fault FS :=
  if 255 ≤ src.length then .error .nameField
  else .ok (wrBytes s b 0 (src ++ [0]))

/-- The C string that starts at `off` of block `b`, reading at most `fuel` bytes. -/
def readCStr (s : FS) (b : Nat) : Nat → Nat → List Nat
  | 0, _ => []
  | fuel + 1, off =>
    if rd8 s b off = 0 then [] else rd8 s b off :: readCStr s b fuel (off + 1)

/-! ## Fields of the superblock (block 0) and of an inode (any block) -/

def sb_flags (s : FS) : Nat := rd8 s 0 255
def num_blocks (s : FS) : Int := rd32 s 0 256
def root_block (s : FS) : Int := rd32 s 0 260
def num_free_blocks (s : FS) : Int := rd32 s 0 264
/-- The byte `fs_superblock->block_map[index]`. -/
def block_map (s : FS) (index : Nat) : Nat := rd8 s 0 (268 + index)

def inode_name (s : FS) (b : Nat) : List Nat := readCStr s b 255 0
def inode_flags (s : FS) (b : Nat) : Nat := rd8 s b 255
def inode_file_size (s : FS) (b : Nat) : Int := rd32 s b 256
def inode_indirect_refs (s : FS) (b : Nat) : Int := rd32 s b 1020

/-- Bit `k` of the bitmap: the bit with mask `0x80 >> (k mod 8)` of byte `k div 8`. -/
def bitSet (s : FS) (k : Nat) : Bool :=
  block_map s (k / 8) &&& (128 >>> (k % 8)) != 0

/-- The number of set bits among the 6048 bits of `block_map`. -/
def popcount (s : FS) : Nat := ((Finset.range 6048).filter (fun k => bitSet s k = true)).card

/-! ## Block allocator -/

/-- The function `set_block`.  `block >> 3` and `block & 0x7` are the floor
quotient and the remainder by 8 (arithmetic shift, two's complement). -/
def set_block (block : Int) (s : FS) : Except Fault FS :=
  let index := block / 8
  let bitmask := 128 >>> (block % 8).toNat
  if index < 0 ∨ 756 ≤ index then .error (.bitmapIndex index)
  else if block_map s index.toNat &&& bitmask = 0 then
    let s1 := wr8 s 0 (268 + index.toNat) (block_map s index.toNat ||| bitmask)
    .ok (wr32 s1 0 264 (num_free_blocks s1 - 1))
  else .ok s

/-- The function `clear_block`; `~bitmask` keeps, of the low eight bits, all but the mask. -/
def clear_block (block : Int) (s : FS) : Except Fault FS :=
  let index := block / 8
  let bitmask := 128 >>> (block % 8).toNat
  if index < 0 ∨ 756 ≤ index then .error (.bitmapIndex index)
  else if block_map s index.toNat &&& bitmask ≠ 0 then
    let s1 := wr8 s 0 (268 + index.toNat) (block_map s index.toNat &&& (255 - bitmask))
    .ok (wr32 s1 0 264 (num_free_blocks s1 + 1))
  else .ok s

/-- The inner loop of `first_free_block`: the first `j` in `[j, j + fuel)` with
`~byte & ((1 << 7) >> j)` non-zero. -/
def scan_byte (byte : Nat) : Nat → Nat → Option Nat
  | 0, _ => none
  | fuel + 1, j =>
    if (255 - byte) &&& (128 >>> j) ≠ 0 then some j else scan_byte byte fuel (j + 1)

/-- The outer loop of `first_free_block` from byte `i`, with `todo` bytes left to visit.
The test `block_map[i] == 0xFF` can only hold when `char` is unsigned. -/
def ffb_loop (signedChar : Bool) (s : FS) : Nat → Nat → Except Fault Int
  | 0, _ => .ok (-1)
  | todo + 1, i =>
    if 756 ≤ i then .error (.bitmapIndex i)
    else if (!signedChar && block_map s i == 255) then ffb_loop signedChar s todo (i + 1)
    else
      match scan_byte (block_map s i) 8 0 with
      | some j => .ok ((8 * i + j : Nat) : Int)
      | none => ffb_loop signedChar s todo (i + 1)

/-- The function `first_free_block`; `-1` is its "no space" result. -/
def first_free_block (signedChar : Bool) (s : FS) : Except Fault Int :=
  if num_free_blocks s = 0 then .ok (-1)
  else ffb_loop signedChar s (Int.tdiv (num_blocks s) 8).toNat 0

/-! ## format -/

/-- The function `format`.  `init` is the content of the freshly allocated blocks. -/
def format (init : Nat → Nat → Nat) (name : List Nat) (_flags : Nat) (nblk : Int) :
    Except Fault FS :=
  if nblk < 32 then .error .assertion
  else if 6048 < nblk then .error .assertion
  else
    match strcpy_name { nblocks := nblk.toNat, mem := init } 0 name with
    | .error f => .error f
    | .ok s1 =>
      let s2 := wr32 s1 0 256 nblk
      let s3 := wr8 s2 0 255 WRITE
      let s4 := wr32 s3 0 260 1
      let s5 := wr32 s4 0 264 (nblk - 2)
      let s6 := fill s5 0 268 756 0
      let s7 := wr8 s6 0 268 0xc0
      let r1 := wrBytes s7 1 0 [47, 0]
      let r2 := wr8 r1 1 255 DIR_WRITE
      let r3 := fill r2 1 260 760 0
      let r4 := wr32 r3 1 256 0
      .ok (wr32 r4 1 1020 0)

/-! ## Path lookup -/

/-- The function `char_count`: the loop runs over `s[0..strlen(s)]`, terminator included. -/
def char_count (s : List Nat) (c : Nat) : Nat := (s ++ [0]).count c

/-- The successive results of `strtok(_, "/")`: the maximal runs of characters other
than `/`; `cur` is the run being read. -/
def strtok_all : List Nat → List Nat → List (List Nat)
  | cur, [] => if cur = [] then [] else [cur]
  | cur, c :: cs =>
    if c = 47 then (if cur = [] then strtok_all [] cs else cur :: strtok_all [] cs)
    else strtok_all (cur ++ [c]) cs

/-- The pointer `fs_partition[b]`, as the number of the block it points to. -/
def blockAt (s : FS) (b : Int) : Except Fault Nat :=
  if 0 ≤ b ∧ b < (s.nblocks : Int) then .ok b.toNat else .error (.blockNumber b)

/-- The function `get_subdirs`: the block `dir->indirect_refs`, viewed as `int[256]`. -/
def get_subdirs (s : FS) (dir : Nat) : Except Fault Nat :=
  blockAt s (inode_indirect_refs s dir)

/-- The two flag tests of `find_parent_inode` that return `NULL`, negated. -/
def dir_usable (s : FS) (dir : Nat) (writeable : Int) : Bool :=
  !(inode_flags s dir == FILE_READ || inode_flags s dir == FILE_WRITE)
    && !(writeable != 0 && inode_flags s dir != DIR_WRITE)

/-- The variables of the `while (j < depth)` loop of `find_parent_inode`: `toks`
starts with `next_dir` and is empty when `next_dir == NULL`. -/
structure Walk where
  current_dir : Nat
  current_name : List Nat
  j : Nat
  toks : List (List Nat)

/-- How one pass through the loop body ends: with a `return`, or at the loop test again. -/
inductive BodyEnd where
  | ret (r : Except Fault (Option Nat))
  | again (w : Walk)

/-- The body of the `while (j < depth)` loop.  The `for` loop inspects `subdirs[0]` only:
on a match it `break`s, otherwise it returns `NULL` before `++i` is reached; with
`file_size <= 0` it is skipped and `j`, `next_dir` stay as they are. -/
def fpi_body (s : FS) (writeable : Int) (w : Walk) : BodyEnd :=
  if 255 < w.current_name.length + 1 + 1 then .ret (.error .pathBuffer)
  else
    match w.toks with
    | [] => .ret (.error .nullToken)
    | next_dir :: rest =>
      if 255 < w.current_name.length + 1 + next_dir.length + 1 then .ret (.error .pathBuffer)
      else
        let name1 := w.current_name ++ [47] ++ next_dir
        match get_subdirs s w.current_dir with
        | .error f => .ret (.error f)
        | .ok subdirs =>
          if 0 < inode_file_size s w.current_dir then
            match blockAt s (rd32 s subdirs 0) with
            | .error f => .ret (.error f)
            | .ok node =>
              if name1 = inode_name s node then
                if dir_usable s node writeable then
                  .again { current_dir := node, current_name := name1, j := w.j + 1, toks := rest }
                else .ret (.ok none)
              else .ret (.ok none)
          else if dir_usable s w.current_dir writeable then
            .again { w with current_name := name1 }
          else .ret (.ok none)

/-- The `while (j < depth)` loop of `find_parent_inode` and the tests after it.  Every
pass appends at least one byte to `current_name[255]`, so 255 passes always suffice:
`fuel` runs out only where the buffer has. -/
def fpi_loop (s : FS) (writeable : Int) (depth : Nat) : Nat → Walk → Except Fault (Option Nat)
  | 0, w =>
    if depth ≤ w.j then
      .ok (if dir_usable s w.current_dir writeable then some w.current_dir else none)
    else .error .pathBuffer
  | fuel + 1, w =>
    if depth ≤ w.j then
      .ok (if dir_usable s w.current_dir writeable then some w.current_dir else none)
    else
      match fpi_body s writeable w with
      | .ret r => r
      | .again w1 => fpi_loop s writeable depth fuel w1

/-- The function `find_parent_inode`; the result is the block of the inode, `none` for `NULL`. -/
def find_parent_inode (s : FS) (name : List Nat) (writeable : Int) :
    Except Fault (Option Nat) :=
  if s.nblocks ≤ 1 then .error (.blockNumber 1)
  else fpi_loop s writeable (char_count name 47) 255
    { current_dir := 1, current_name := [47], j := 1, toks := strtok_all [] name }

/-! ## mkdir -/

/-- The loop `while (subdirs[i] && (i < 256)) ++i;`.  For `i ≥ 256` the test is
false whatever the entry read past the block holds. -/
def scan_subdirs (s : FS) (subdirs : Nat) : Nat → Int → Except Fault Int
  | 0, i => .ok i
  | fuel + 1, i =>
    if i < 0 then .error (.childIndex i)
    else if 256 ≤ i then .ok i
    else if rd32 s subdirs (4 * i.toNat) ≠ 0 then scan_subdirs s subdirs fuel (i + 1)
    else .ok i

/-- The function `mkdir`.  `new_node` is a scratch record that is filled in and
never copied into the partition (there is no `write_inode`), so of its
construction only the `strcpy`, the second allocation and `set_block` remain. -/
def mkdir (signedChar : Bool) (i0 : Int) (name : List Nat) (_flags : Nat) (s : FS) :
    Except Fault (Int × FS) :=
  match find_parent_inode s name 1 with
  | .error f => .error f
  | .ok none => .ok (FAILURE, s)
  | .ok (some parent) =>
    match first_free_block signedChar s with
    | .error f => .error f
    | .ok block =>
      match set_block block s with
      | .error f => .error f
      | .ok s1 =>
        if 255 ≤ name.length then .error .nameField
        else
          match first_free_block signedChar s1 with
          | .error f => .error f
          | .ok indirect =>
            match set_block indirect s1 with
            | .error f => .error f
            | .ok s2 =>
              match get_subdirs s2 parent with
              | .error f => .error f
              | .ok subdirs =>
                match scan_subdirs s2 subdirs 257 i0 with
                | .error f => .error f
                | .ok i =>
                  if i = 256 then .ok (FAILURE, s2)
                  else if 256 < i then .error (.childIndex i)
                  else .ok (SUCCESS, wr32 s2 subdirs (4 * i.toNat) block)

/-! ## Auxiliary notions used by the statements -/

/-- Whether `byte & ((1 << 7) >> j)` is non-zero. -/
def maskBit (a j : Nat) : Bool := a &&& (128 >>> j) != 0

/-- The state `set_block(i)` produces when bit `i` is clear. -/
def markUsed (s : FS) (i : Nat) : FS :=
  wr32 (wr8 s 0 (268 + i / 8) (block_map s (i / 8) ||| 128 >>> (i % 8))) 0 264
    (num_free_blocks (wr8 s 0 (268 + i / 8) (block_map s (i / 8) ||| 128 >>> (i % 8))) - 1)

/-- The state `clear_block(i)` produces when bit `i` is set. -/
def markFree (s : FS) (i : Nat) : FS :=
  wr32 (wr8 s 0 (268 + i / 8) (block_map s (i / 8) &&& (255 - 128 >>> (i % 8)))) 0 264
    (num_free_blocks (wr8 s 0 (268 + i / 8) (block_map s (i / 8) &&& (255 - 128 >>> (i % 8)))) + 1)

/-- The states reached from `s0` by calls of `set_block` and `clear_block` on block
numbers below `bound`. -/
inductive Reach (bound : Nat) (s0 : FS) : FS → Prop where
  | start : Reach bound s0 s0
  | set (s t : FS) (i : Nat) :
      Reach bound s0 s → i < bound → set_block (i : Int) s = .ok t → Reach bound s0 t
  | clear (s t : FS) (i : Nat) :
      Reach bound s0 s → i < bound → clear_block (i : Int) s = .ok t → Reach bound s0 t

/-- The free-count invariant, `num_free_blocks == num_blocks - popcount(block_map)`,
over the integers. -/
def FreeCountInv (s : FS) : Prop := num_free_blocks s = num_blocks s - (popcount s : Int)

/-- The free-count invariant as the C expression computes it, in 32-bit `int` arithmetic. -/
def FreeCountInv32 (s : FS) : Prop :=
  num_free_blocks s = toInt32 (num_blocks s - (popcount s : Int))

/-- An all-zero heap: what `malloc` hands out on a fresh process. -/
def zeroInit : Nat → Nat → Nat := fun _ _ => 0

/-- The state `format` returns when both assertions hold and the name fits its field. -/
def formatted (init : Nat → Nat → Nat) (name : List Nat) (nblk : Int) : FS :=
  let s1 := wrBytes { nblocks := nblk.toNat, mem := init } 0 0 (name ++ [0])
  let s2 := wr32 s1 0 256 nblk
  let s3 := wr8 s2 0 255 WRITE
  let s4 := wr32 s3 0 260 1
  let s5 := wr32 s4 0 264 (nblk - 2)
  let s6 := fill s5 0 268 756 0
  let s7 := wr8 s6 0 268 0xc0
  let r1 := wrBytes s7 1 0 [47, 0]
  let r2 := wr8 r1 1 255 DIR_WRITE
  let r3 := fill r2 1 260 760 0
  let r4 := wr32 r3 1 256 0
  wr32 r4 1 1020 0

/-- The calls `set_block(i)` for the block numbers `i` of `l`, in order. -/
def set_blocks (l : List Nat) (s : FS) : Except Fault FS :=
  match l with
  | [] => .ok s
  | i :: rest =>
    match set_block (i : Int) s with
    | .error f => .error f
    | .ok t => set_blocks rest t

/-! ## Concrete inputs -/

/-- The bytes of "Test Superblock", the name the testing `main` formats with. -/
def testName : List Nat := [84, 101, 115, 116, 32, 83, 117, 112, 101, 114, 98, 108, 111, 99, 107]

/-- The bytes of "/test", the directory the testing `main` creates. -/
def pathTest : List Nat := [47, 116, 101, 115, 116]

/-- The bytes of "/test/y". -/
def pathTestY : List Nat := [47, 116, 101, 115, 116, 47, 121]

/-- The bytes of "/d". -/
def pathD : List Nat := [47, 100]

/-- The filesystem of the testing `main`: `format("Test Superblock", 1, 32)` on a zeroed heap. -/
def mainFS : Except Fault FS := format zeroInit testName 1 32

/-- A 32-block image whose root directory is full: a formatted partition in which the
root inode has indirect_refs 5 and file_size 256, and block 5 holds 256 entries, each
the block number 6. -/
def fullDirImage : FS :=
  { nblocks := 32,
    mem := fun b o =>
      if b = 5 then (if o % 4 = 0 then 6 else 0)
      else if b = 1 ∧ o = 1020 then 5
      else if b = 1 ∧ o = 257 then 1
      else (formatted zeroInit [] 32).mem b o }

/-! ## rmdir, dump and load -/

/-- The function `rmdir`: it looks the parent up and ends without a `return` statement;
`ret` is the indeterminate value its caller reads.  The partition is left as it is. -/
def rmdir (ret : Int) (name : List Nat) (s : FS) : Except Fault (Int × FS) :=
  match find_parent_inode s name 0 with
  | .error f => .error f
  | .ok _ => .ok (ret, s)

/-- The `int` at offset `off` of a flat byte sequence. -/
def rd32At (m : Nat → Nat) (off : Nat) : Int :=
  toInt32 ((m off % 256 + 256 * (m (off + 1) % 256) + 65536 * (m (off + 2) % 256)
    + 16777216 * (m (off + 3) % 256) : Nat) : Int)

/-- The function `dump_to_disk`, as the bytes it writes (every `fputc` succeeding).
`atPtr a` is the byte at address `partition + a`: the argument is cast to
`superblock*` to read `num_blocks` and to `char*` to be written out byte by byte. -/
def dump_to_disk (atPtr : Nat → Nat) : List Nat :=
  (List.range ((rd32At atPtr 256).toNat * 1024)).map (fun a => atPtr a % 256)

/-- What `load_from_disk` hands back. -/
inductive Loaded where
  /-- it returns `NULL`: the file ended early -/
  | null
  /-- it returns a buffer with these bytes -/
  | image (bytes : List Nat)
  /-- the block count read from the file gives `malloc(1024 * num_blocks)` no room
  for the first block that `memcpy` then copies -/
  | undefined
  deriving DecidableEq

/-- The function `load_from_disk` on a file with the given bytes.  The 1024 bytes read
first go to the scratch `super`; `feof` becomes true on the first read past the end. -/
def load_from_disk (file : List Nat) : Loaded :=
  if file.length < 1024 then .null
  else
    let n := rd32At (fun a => file.getD a 0) 256
    if n < 1 ∨ 2097152 ≤ n then .undefined
    else if file.length < n.toNat * 1024 then .null
    else .image (file.take (n.toNat * 1024))

/-- The partition as one contiguous image: block `k` at bytes `[1024 k, 1024 k + 1024)`. -/
def contiguous (s : FS) : Nat → Nat := fun a => rd8 s (a / 1024) (a % 1024)

/-- The bytes found at `fs_partition`, which is what `format` returns: a table of
8-byte little-endian pointers, `addr k` being the address of block `k`. -/
def pointerTable (addr : Nat → Nat) : Nat → Nat := fun a => addr (a / 8) / 256 ^ (a % 8) % 256

/-- Block addresses as a 64-bit heap hands them out for a 40-block partition: the
table at 0x5555555592a0, then one 1040-byte chunk per block. -/
def heapAddr (k : Nat) : Nat := 0x5555555593f0 + 1040 * k

/-! ## More concrete inputs -/

/-- The bytes of "/a/b". -/
def pathAB : List Nat := [47, 97, 47, 98]

/-- The name of the superblock, read as the C string at the start of block 0. -/
def sb_name (s : FS) : List Nat := readCStr s 0 255 0

/-- A name of 254 bytes, each the letter A. -/
def name254 : List Nat := List.replicate 254 65

/-- The bytes `write_inode` leaves in block `b` for a record with the given path,
flags, file_size and indirect_refs (direct_refs and the bytes after the path zero). -/
def putInode (s : FS) (b : Nat) (path : List Nat) (flags : Nat) (file_size indirect : Int) :
    FS :=
  wr32 (wr32 (wr8 (wrBytes (fill s b 0 1024 0) b 0 path) b 255 flags) b 256 file_size)
    b 1020 indirect

/-- A 32-block image whose root directory has the two entries 6 and 7 in its children
array (block 5); blocks 6 and 7 hold writable directory inodes with paths `p0`, `p1`. -/
def twoChildImage (p0 p1 : List Nat) : FS :=
  let s0 := formatted zeroInit [] 32
  let s1 := wr32 (wr32 s0 1 256 2) 1 1020 5
  let s2 := wr32 (wr32 (fill s1 5 0 1024 0) 5 0 6) 5 4 7
  putInode (putInode s2 6 p0 DIR_WRITE 0 8) 7 p1 DIR_WRITE 0 9

/-- A 32-block image with one empty directory "/d": the root has file_size 1 and the
children array (block 5) holds the entry 6; block 6 is the inode of "/d", with
file_size 0 and children array in block 7; blocks 0, 1, 5, 6, 7 are marked used. -/
def oneDirImage : FS :=
  let s0 := markUsed (markUsed (markUsed (formatted zeroInit [] 32) 5) 6) 7
  let s1 := wr32 (wr32 s0 1 256 1) 1 1020 5
  let s2 := wr32 (fill s1 5 0 1024 0) 5 0 6
  fill (putInode s2 6 pathD DIR_WRITE 0 7) 7 0 1024 0

/-! ## Memory lemmas -/

theorem rd8_lt (s : FS) (b o : Nat) : rd8 s b o < 256 := by
  unfold rd8; omega

theorem rd8_wr8 (s : FS) (b o v b1 o1 : Nat) :
    rd8 (wr8 s b o v) b1 o1 = if b1 = b ∧ o1 = o then v % 256 else rd8 s b1 o1 := by
  unfold rd8 wr8; dsimp only; split <;> simp

theorem rd8_wr32 (s : FS) (b o : Nat) (v : Int) (b1 o1 : Nat) :
    rd8 (wr32 s b o v) b1 o1 =
      if b1 = b ∧ o1 = o then (v % 4294967296).toNat % 256
      else if b1 = b ∧ o1 = o + 1 then (v % 4294967296).toNat / 256 % 256
      else if b1 = b ∧ o1 = o + 2 then (v % 4294967296).toNat / 65536 % 256
      else if b1 = b ∧ o1 = o + 3 then (v % 4294967296).toNat / 16777216 % 256
      else rd8 s b1 o1 := by
  unfold rd8 wr32; dsimp only
  split_ifs <;> simp

theorem rd8_wr32_other (s : FS) (b o : Nat) (v : Int) (b1 o1 : Nat)
    (h : b1 ≠ b ∨ o1 < o ∨ o + 3 < o1) : rd8 (wr32 s b o v) b1 o1 = rd8 s b1 o1 := by
  rw [rd8_wr32]
  split_ifs <;> first | rfl | omega

theorem rd8_fill (s : FS) (b o len v b1 o1 : Nat) :
    rd8 (fill s b o len v) b1 o1 =
      if b1 = b ∧ o ≤ o1 ∧ o1 < o + len then v % 256 else rd8 s b1 o1 := by
  unfold rd8 fill; dsimp only; split <;> simp

theorem rd8_wrBytes (s : FS) (b o : Nat) (l : List Nat) (b1 o1 : Nat) :
    rd8 (wrBytes s b o l) b1 o1 =
      if b1 = b ∧ o ≤ o1 ∧ o1 < o + l.length then l.getD (o1 - o) 0 % 256 else rd8 s b1 o1 := by
  unfold rd8 wrBytes; dsimp only; split <;> simp

theorem toInt32_of_range (v : Int) (h1 : -2147483648 ≤ v) (h2 : v < 2147483648) :
    toInt32 v = v := by
  unfold toInt32; omega

theorem toInt32_range (v : Int) : -2147483648 ≤ toInt32 v ∧ toInt32 v < 2147483648 := by
  unfold toInt32; omega

theorem rd32_range (s : FS) (b o : Nat) :
    -2147483648 ≤ rd32 s b o ∧ rd32 s b o < 2147483648 := toInt32_range _

theorem rd32_wr32_same (s : FS) (b o : Nat) (v : Int) :
    rd32 (wr32 s b o v) b o = toInt32 v := by
  have e0 : rd8 (wr32 s b o v) b o = (v % 4294967296).toNat % 256 := by
    rw [rd8_wr32, if_pos ⟨rfl, rfl⟩]
  have e1 : rd8 (wr32 s b o v) b (o + 1) = (v % 4294967296).toNat / 256 % 256 := by
    rw [rd8_wr32, if_neg (by omega), if_pos ⟨rfl, rfl⟩]
  have e2 : rd8 (wr32 s b o v) b (o + 2) = (v % 4294967296).toNat / 65536 % 256 := by
    rw [rd8_wr32, if_neg (by omega), if_neg (by omega), if_pos ⟨rfl, rfl⟩]
  have e3 : rd8 (wr32 s b o v) b (o + 3) = (v % 4294967296).toNat / 16777216 % 256 := by
    rw [rd8_wr32, if_neg (by omega), if_neg (by omega), if_neg (by omega), if_pos ⟨rfl, rfl⟩]
  unfold rd32
  rw [e0, e1, e2, e3]
  unfold toInt32
  omega

theorem rd32_congr (s t : FS) (b o : Nat)
    (h : ∀ k, k < 4 → rd8 t b (o + k) = rd8 s b (o + k)) : rd32 t b o = rd32 s b o := by
  unfold rd32
  have h0 := h 0 (by omega)
  have h1 := h 1 (by omega)
  have h2 := h 2 (by omega)
  have h3 := h 3 (by omega)
  simp only [Nat.add_zero] at h0
  rw [h0, h1, h2, h3]

theorem rd32_wr32_other (s : FS) (b o : Nat) (v : Int) (b1 o1 : Nat)
    (h : b1 ≠ b ∨ o1 + 3 < o ∨ o + 3 < o1) :
    rd32 (wr32 s b o v) b1 o1 = rd32 s b1 o1 := by
  apply rd32_congr
  intro k hk
  apply rd8_wr32_other
  omega

theorem rd32_wr8_other (s : FS) (b o v b1 o1 : Nat)
    (h : b1 ≠ b ∨ o1 + 3 < o ∨ o < o1) :
    rd32 (wr8 s b o v) b1 o1 = rd32 s b1 o1 := by
  apply rd32_congr
  intro k hk
  rw [rd8_wr8, if_neg]
  omega

theorem rd32_fill_other (s : FS) (b o len v b1 o1 : Nat)
    (h : b1 ≠ b ∨ o1 + 3 < o ∨ o + len ≤ o1) :
    rd32 (fill s b o len v) b1 o1 = rd32 s b1 o1 := by
  apply rd32_congr
  intro k hk
  rw [rd8_fill, if_neg]
  omega

theorem rd32_wrBytes_other (s : FS) (b o : Nat) (l : List Nat) (b1 o1 : Nat)
    (h : b1 ≠ b ∨ o1 + 3 < o ∨ o + l.length ≤ o1) :
    rd32 (wrBytes s b o l) b1 o1 = rd32 s b1 o1 := by
  apply rd32_congr
  intro k hk
  rw [rd8_wrBytes, if_neg]
  omega

/-! ## Bits of a bitmap byte -/

set_option maxRecDepth 100000 in
theorem maskBit_or : ∀ a < 256, ∀ j < 8, ∀ m < 8,
    maskBit ((a ||| 128 >>> j) % 256) m = (decide (m = j) || maskBit a m) := by
  decide

set_option maxRecDepth 100000 in
theorem maskBit_andNot : ∀ a < 256, ∀ j < 8, ∀ m < 8,
    maskBit ((a &&& (255 - 128 >>> j)) % 256) m = (decide (m ≠ j) && maskBit a m) := by
  decide

set_option maxRecDepth 100000 in
theorem maskBit_compl : ∀ a < 256, ∀ j < 8,
    decide ((255 - a) &&& (128 >>> j) ≠ 0) = !maskBit a j := by
  decide

set_option maxRecDepth 100000 in
theorem maskBit_full : ∀ j < 8, maskBit 255 j = true := by
  decide

theorem bitSet_eq (s : FS) (k : Nat) : bitSet s k = maskBit (block_map s (k / 8)) (k % 8) := rfl

theorem land_eq_zero_iff (s : FS) (i : Nat) :
    block_map s (i / 8) &&& 128 >>> (i % 8) = 0 ↔ bitSet s i = false := by
  unfold bitSet
  simp

/-! ## `set_block` and `clear_block` on a block number of the bitmap -/

theorem set_block_eq (s : FS) (i : Nat) (hi : i < 6048) :
    set_block (i : Int) s = .ok (if bitSet s i = true then s else markUsed s i) := by
  have e1 : ((i : Int) / 8).toNat = i / 8 := by omega
  have e2 : ((i : Int) % 8).toNat = i % 8 := by omega
  have e3 : ¬ ((i : Int) / 8 < 0 ∨ 756 ≤ (i : Int) / 8) := by omega
  unfold set_block
  simp only [e1, e2, if_neg e3]
  by_cases hb : bitSet s i = true
  · have : ¬ (block_map s (i / 8) &&& 128 >>> (i % 8) = 0) := by
      rw [land_eq_zero_iff]; simp [hb]
    rw [if_neg this, if_pos hb]
  · have : block_map s (i / 8) &&& 128 >>> (i % 8) = 0 := by
      rw [land_eq_zero_iff]; simpa using hb
    rw [if_pos this, if_neg hb]
    rfl

theorem clear_block_eq (s : FS) (i : Nat) (hi : i < 6048) :
    clear_block (i : Int) s = .ok (if bitSet s i = true then markFree s i else s) := by
  have e1 : ((i : Int) / 8).toNat = i / 8 := by omega
  have e2 : ((i : Int) % 8).toNat = i % 8 := by omega
  have e3 : ¬ ((i : Int) / 8 < 0 ∨ 756 ≤ (i : Int) / 8) := by omega
  unfold clear_block
  simp only [e1, e2, if_neg e3]
  by_cases hb : bitSet s i = true
  · have : block_map s (i / 8) &&& 128 >>> (i % 8) ≠ 0 := by
      rw [Ne, land_eq_zero_iff]; simp [hb]
    rw [if_pos this, if_pos hb]
    rfl
  · have : ¬ (block_map s (i / 8) &&& 128 >>> (i % 8) ≠ 0) := by
      rw [Ne, land_eq_zero_iff]; simpa using hb
    rw [if_neg this, if_neg hb]

theorem bitSet_markUsed (s : FS) (i k : Nat) :
    bitSet (markUsed s i) k = (decide (k = i) || bitSet s k) := by
  rw [bitSet_eq, bitSet_eq]
  unfold markUsed block_map
  rw [rd8_wr32_other _ _ _ _ _ _ (by omega), rd8_wr8]
  by_cases h : k / 8 = i / 8
  · rw [if_pos ⟨rfl, by omega⟩, h]
    rw [maskBit_or _ (rd8_lt _ _ _) _ (Nat.mod_lt _ (by omega)) _ (Nat.mod_lt _ (by omega))]
    congr 1
    simp only [decide_eq_decide]
    omega
  · rw [if_neg (by omega)]
    have : k ≠ i := fun e => h (by rw [e])
    simp [this]

theorem bitSet_markFree (s : FS) (i k : Nat) :
    bitSet (markFree s i) k = (decide (k ≠ i) && bitSet s k) := by
  rw [bitSet_eq, bitSet_eq]
  unfold markFree block_map
  rw [rd8_wr32_other _ _ _ _ _ _ (by omega), rd8_wr8]
  by_cases h : k / 8 = i / 8
  · rw [if_pos ⟨rfl, by omega⟩, h]
    rw [maskBit_andNot _ (rd8_lt _ _ _) _ (Nat.mod_lt _ (by omega)) _ (Nat.mod_lt _ (by omega))]
    congr 1
    simp only [decide_eq_decide]
    omega
  · rw [if_neg (by omega)]
    have : k ≠ i := fun e => h (by rw [e])
    simp [this]

theorem num_free_markUsed (s : FS) (i : Nat) :
    num_free_blocks (markUsed s i) = toInt32 (num_free_blocks s - 1) := by
  unfold markUsed num_free_blocks
  rw [rd32_wr32_same, rd32_wr8_other _ _ _ _ _ _ (by omega)]

theorem num_free_markFree (s : FS) (i : Nat) :
    num_free_blocks (markFree s i) = toInt32 (num_free_blocks s + 1) := by
  unfold markFree num_free_blocks
  rw [rd32_wr32_same, rd32_wr8_other _ _ _ _ _ _ (by omega)]

theorem mem_wr8_other (s : FS) (b o v b1 o1 : Nat) (h : ¬ (b1 = b ∧ o1 = o)) :
    (wr8 s b o v).mem b1 o1 = s.mem b1 o1 := by
  unfold wr8; dsimp only; rw [if_neg h]

theorem mem_wr32_other (s : FS) (b o : Nat) (v : Int) (b1 o1 : Nat)
    (h : b1 ≠ b ∨ o1 < o ∨ o + 3 < o1) : (wr32 s b o v).mem b1 o1 = s.mem b1 o1 := by
  unfold wr32; dsimp only
  rw [if_neg (by omega), if_neg (by omega), if_neg (by omega), if_neg (by omega)]

theorem mem_markUsed (s : FS) (i b o : Nat)
    (h : ¬ (b = 0 ∧ (o = 268 + i / 8 ∨ (264 ≤ o ∧ o < 268)))) :
    (markUsed s i).mem b o = s.mem b o := by
  unfold markUsed
  rw [mem_wr32_other _ _ _ _ _ _ (by omega), mem_wr8_other _ _ _ _ _ _ (by omega)]

theorem mem_markFree (s : FS) (i b o : Nat)
    (h : ¬ (b = 0 ∧ (o = 268 + i / 8 ∨ (264 ≤ o ∧ o < 268)))) :
    (markFree s i).mem b o = s.mem b o := by
  unfold markFree
  rw [mem_wr32_other _ _ _ _ _ _ (by omega), mem_wr8_other _ _ _ _ _ _ (by omega)]

theorem rd8_of_mem {s t : FS} {b o : Nat} (h : t.mem b o = s.mem b o) :
    rd8 t b o = rd8 s b o := by
  unfold rd8; rw [h]

theorem num_blocks_markUsed (s : FS) (i : Nat) : num_blocks (markUsed s i) = num_blocks s := by
  unfold num_blocks
  apply rd32_congr
  intro k hk
  exact rd8_of_mem (mem_markUsed s i 0 _ (by omega))

theorem num_blocks_markFree (s : FS) (i : Nat) : num_blocks (markFree s i) = num_blocks s := by
  unfold num_blocks
  apply rd32_congr
  intro k hk
  exact rd8_of_mem (mem_markFree s i 0 _ (by omega))

theorem card_filter_set (n i : Nat) (p q : Nat → Bool) (hi : i < n) (hp : p i = false)
    (hq : ∀ k, q k = (decide (k = i) || p k)) :
    ((Finset.range n).filter (fun k => q k = true)).card
      = ((Finset.range n).filter (fun k => p k = true)).card + 1 := by
  have hni : i ∉ (Finset.range n).filter (fun k => p k = true) := by
    simp [hp]
  rw [← Finset.card_insert_of_not_mem hni]
  congr 1
  ext k
  simp only [Finset.mem_filter, Finset.mem_range, Finset.mem_insert, hq,
    Bool.or_eq_true, decide_eq_true_eq]
  constructor
  · rintro ⟨hk, h | h⟩
    · exact Or.inl h
    · exact Or.inr ⟨hk, h⟩
  · rintro (h | ⟨hk, h⟩)
    · exact ⟨h ▸ hi, Or.inl h⟩
    · exact ⟨hk, Or.inr h⟩

theorem card_filter_clear (n i : Nat) (p q : Nat → Bool) (hi : i < n) (hp : p i = true)
    (hq : ∀ k, q k = (decide (k ≠ i) && p k)) :
    ((Finset.range n).filter (fun k => q k = true)).card + 1
      = ((Finset.range n).filter (fun k => p k = true)).card := by
  have hmi : i ∈ (Finset.range n).filter (fun k => p k = true) := by
    simp [hp, hi]
  have hpos : 0 < ((Finset.range n).filter (fun k => p k = true)).card :=
    Finset.card_pos.mpr ⟨i, hmi⟩
  have e : (Finset.range n).filter (fun k => q k = true)
      = ((Finset.range n).filter (fun k => p k = true)).erase i := by
    ext k
    simp only [Finset.mem_filter, Finset.mem_range, Finset.mem_erase, hq,
      Bool.and_eq_true, decide_eq_true_eq]
    tauto
  rw [e, Finset.card_erase_of_mem hmi]
  omega

theorem popcount_markUsed (s : FS) (i : Nat) (hi : i < 6048) (hb : bitSet s i = false) :
    popcount (markUsed s i) = popcount s + 1 :=
  card_filter_set 6048 i (bitSet s) (bitSet (markUsed s i)) hi hb (bitSet_markUsed s i)

theorem popcount_markFree (s : FS) (i : Nat) (hi : i < 6048) (hb : bitSet s i = true) :
    popcount (markFree s i) + 1 = popcount s :=
  card_filter_clear 6048 i (bitSet s) (bitSet (markFree s i)) hi hb (bitSet_markFree s i)

theorem popcount_le (s : FS) : popcount s ≤ 6048 := by
  unfold popcount
  calc ((Finset.range 6048).filter (fun k => bitSet s k = true)).card
      ≤ (Finset.range 6048).card := Finset.card_filter_le _ _
    _ = 6048 := Finset.card_range _

/-! ## The state after `format` -/

theorem rd8_wr8_other (s : FS) (b o v b1 o1 : Nat) (h : b1 ≠ b ∨ o1 ≠ o) :
    rd8 (wr8 s b o v) b1 o1 = rd8 s b1 o1 := by
  rw [rd8_wr8, if_neg (by omega)]

theorem rd8_fill_other (s : FS) (b o len v b1 o1 : Nat)
    (h : b1 ≠ b ∨ o1 < o ∨ o + len ≤ o1) :
    rd8 (fill s b o len v) b1 o1 = rd8 s b1 o1 := by
  rw [rd8_fill, if_neg (by omega)]

theorem rd8_wrBytes_other (s : FS) (b o : Nat) (l : List Nat) (b1 o1 : Nat)
    (h : b1 ≠ b ∨ o1 < o ∨ o + l.length ≤ o1) :
    rd8 (wrBytes s b o l) b1 o1 = rd8 s b1 o1 := by
  rw [rd8_wrBytes, if_neg (by omega)]

theorem format_eq (init : Nat → Nat → Nat) (name : List Nat) (flags : Nat) (nblk : Int)
    (hname : name.length ≤ 254) (h1 : 32 ≤ nblk) (h2 : nblk ≤ 6048) :
    format init name flags nblk = .ok (formatted init name nblk) := by
  unfold format strcpy_name
  rw [if_neg (by omega), if_neg (by omega), if_neg (by omega)]
  rfl

theorem format_ok_inv (init : Nat → Nat → Nat) (name : List Nat) (flags : Nat) (nblk : Int)
    (s : FS) (h1 : 32 ≤ nblk) (h2 : nblk ≤ 6048) (h : format init name flags nblk = .ok s) :
    name.length ≤ 254 ∧ s = formatted init name nblk := by
  by_cases hname : name.length ≤ 254
  · rw [format_eq init name flags nblk hname h1 h2] at h
    exact ⟨hname, (Except.ok.inj h).symm⟩
  · unfold format strcpy_name at h
    rw [if_neg (by omega), if_neg (by omega), if_pos (by omega)] at h
    exact Except.noConfusion h

theorem nblocks_formatted (init : Nat → Nat → Nat) (name : List Nat) (nblk : Int) :
    (formatted init name nblk).nblocks = nblk.toNat := rfl

theorem num_blocks_formatted (init : Nat → Nat → Nat) (name : List Nat) (nblk : Int)
    (h1 : 32 ≤ nblk) (h2 : nblk ≤ 6048) :
    num_blocks (formatted init name nblk) = nblk := by
  unfold num_blocks formatted
  dsimp only
  rw [rd32_wr32_other _ _ _ _ _ _ (by omega), rd32_wr32_other _ _ _ _ _ _ (by omega),
    rd32_fill_other _ _ _ _ _ _ _ (by omega), rd32_wr8_other _ _ _ _ _ _ (by omega),
    rd32_wrBytes_other _ _ _ _ _ _ (by omega), rd32_wr8_other _ _ _ _ _ _ (by omega),
    rd32_fill_other _ _ _ _ _ _ _ (by omega), rd32_wr32_other _ _ _ _ _ _ (by omega),
    rd32_wr32_other _ _ _ _ _ _ (by omega), rd32_wr8_other _ _ _ _ _ _ (by omega),
    rd32_wr32_same]
  exact toInt32_of_range _ (by omega) (by omega)

theorem root_block_formatted (init : Nat → Nat → Nat) (name : List Nat) (nblk : Int) :
    root_block (formatted init name nblk) = 1 := by
  unfold root_block formatted
  dsimp only
  rw [rd32_wr32_other _ _ _ _ _ _ (by omega), rd32_wr32_other _ _ _ _ _ _ (by omega),
    rd32_fill_other _ _ _ _ _ _ _ (by omega), rd32_wr8_other _ _ _ _ _ _ (by omega),
    rd32_wrBytes_other _ _ _ _ _ _ (by omega), rd32_wr8_other _ _ _ _ _ _ (by omega),
    rd32_fill_other _ _ _ _ _ _ _ (by omega), rd32_wr32_other _ _ _ _ _ _ (by omega),
    rd32_wr32_same]
  exact toInt32_of_range _ (by omega) (by omega)

theorem num_free_formatted (init : Nat → Nat → Nat) (name : List Nat) (nblk : Int)
    (h1 : 32 ≤ nblk) (h2 : nblk ≤ 6048) :
    num_free_blocks (formatted init name nblk) = nblk - 2 := by
  unfold num_free_blocks formatted
  dsimp only
  rw [rd32_wr32_other _ _ _ _ _ _ (by omega), rd32_wr32_other _ _ _ _ _ _ (by omega),
    rd32_fill_other _ _ _ _ _ _ _ (by omega), rd32_wr8_other _ _ _ _ _ _ (by omega),
    rd32_wrBytes_other _ _ _ _ _ _ (by omega), rd32_wr8_other _ _ _ _ _ _ (by omega),
    rd32_fill_other _ _ _ _ _ _ _ (by omega), rd32_wr32_same]
  exact toInt32_of_range _ (by omega) (by omega)

theorem block_map_formatted (init : Nat → Nat → Nat) (name : List Nat) (nblk : Int)
    (idx : Nat) (h : idx < 756) :
    block_map (formatted init name nblk) idx = if idx = 0 then 192 else 0 := by
  unfold block_map formatted
  dsimp only
  rw [rd8_wr32_other _ _ _ _ _ _ (by omega), rd8_wr32_other _ _ _ _ _ _ (by omega),
    rd8_fill_other _ _ _ _ _ _ _ (by omega), rd8_wr8_other _ _ _ _ _ _ (by omega),
    rd8_wrBytes_other _ _ _ _ _ _ (by omega), rd8_wr8]
  by_cases h0 : idx = 0
  · rw [if_pos ⟨rfl, by omega⟩, if_pos h0]
  · rw [if_neg (by omega), if_neg h0, rd8_fill, if_pos ⟨rfl, by omega, by omega⟩]

theorem bitSet_formatted (init : Nat → Nat → Nat) (name : List Nat) (nblk : Int)
    (k : Nat) (h : k < 6048) :
    bitSet (formatted init name nblk) k = decide (k < 2) := by
  rw [bitSet_eq, block_map_formatted _ _ _ _ (by omega)]
  by_cases h0 : k / 8 = 0
  · rw [if_pos h0]
    have hk : k < 8 := by omega
    interval_cases k <;> decide
  · rw [if_neg h0]
    have : ¬ k < 2 := by omega
    simp [maskBit, this]

theorem popcount_formatted (init : Nat → Nat → Nat) (name : List Nat) (nblk : Int) :
    popcount (formatted init name nblk) = 2 := by
  unfold popcount
  have e : ∀ n, 2 ≤ n → n ≤ 6048 →
      (Finset.range n).filter (fun k => bitSet (formatted init name nblk) k = true)
        = Finset.range 2 := by
    intro n hn1 hn2
    ext k
    simp only [Finset.mem_filter, Finset.mem_range]
    constructor
    · rintro ⟨hk, hb⟩
      rw [bitSet_formatted _ _ _ _ (by omega)] at hb
      simpa using hb
    · intro hk
      refine ⟨by omega, ?_⟩
      rw [bitSet_formatted _ _ _ _ (by omega)]
      simpa using hk
  rw [e 6048 (by omega) (le_refl _)]
  rfl

theorem inode_flags_formatted (init : Nat → Nat → Nat) (name : List Nat) (nblk : Int) :
    inode_flags (formatted init name nblk) 1 = DIR_WRITE := by
  unfold inode_flags formatted
  dsimp only
  rw [rd8_wr32_other _ _ _ _ _ _ (by omega), rd8_wr32_other _ _ _ _ _ _ (by omega),
    rd8_fill_other _ _ _ _ _ _ _ (by omega), rd8_wr8, if_pos ⟨rfl, rfl⟩]
  rfl

theorem inode_file_size_formatted (init : Nat → Nat → Nat) (name : List Nat) (nblk : Int) :
    inode_file_size (formatted init name nblk) 1 = 0 := by
  unfold inode_file_size formatted
  dsimp only
  rw [rd32_wr32_other _ _ _ _ _ _ (by omega), rd32_wr32_same]
  rfl

theorem inode_indirect_formatted (init : Nat → Nat → Nat) (name : List Nat) (nblk : Int) :
    inode_indirect_refs (formatted init name nblk) 1 = 0 := by
  unfold inode_indirect_refs formatted
  dsimp only
  rw [rd32_wr32_same]
  rfl

theorem inode_name_formatted (init : Nat → Nat → Nat) (name : List Nat) (nblk : Int) :
    inode_name (formatted init name nblk) 1 = [47] := by
  have e0 : rd8 (formatted init name nblk) 1 0 = 47 := by
    unfold formatted
    dsimp only
    rw [rd8_wr32_other _ _ _ _ _ _ (by omega), rd8_wr32_other _ _ _ _ _ _ (by omega),
      rd8_fill_other _ _ _ _ _ _ _ (by omega), rd8_wr8_other _ _ _ _ _ _ (by omega),
      rd8_wrBytes, if_pos ⟨rfl, by omega, by simp⟩]
    rfl
  have e1 : rd8 (formatted init name nblk) 1 1 = 0 := by
    unfold formatted
    dsimp only
    rw [rd8_wr32_other _ _ _ _ _ _ (by omega), rd8_wr32_other _ _ _ _ _ _ (by omega),
      rd8_fill_other _ _ _ _ _ _ _ (by omega), rd8_wr8_other _ _ _ _ _ _ (by omega),
      rd8_wrBytes, if_pos ⟨rfl, by omega, by simp⟩]
    rfl
  unfold inode_name
  rw [readCStr, e0, if_neg (by decide), readCStr, e1, if_pos rfl]

/-! ## The scan of `first_free_block` -/

theorem scan_byte_some (a : Nat) (ha : a < 256) :
    ∀ fuel j r, j + fuel ≤ 8 → scan_byte a fuel j = some r →
      j ≤ r ∧ r < j + fuel ∧ maskBit a r = false ∧ ∀ m, j ≤ m → m < r → maskBit a m = true := by
  intro fuel
  induction fuel with
  | zero => intro j r _ h; simp [scan_byte] at h
  | succ n ih =>
    intro j r hj h
    rw [scan_byte] at h
    have hc := maskBit_compl a ha j (by omega)
    by_cases hfree : (255 - a) &&& (128 >>> j) ≠ 0
    · rw [if_pos hfree] at h
      have hr : j = r := by simpa using h
      subst hr
      refine ⟨le_refl _, by omega, ?_, fun m h1 h2 => by omega⟩
      rw [decide_eq_true hfree] at hc
      simpa using hc.symm
    · rw [if_neg hfree] at h
      obtain ⟨h1, h2, h3, h4⟩ := ih (j + 1) r (by omega) h
      refine ⟨by omega, by omega, h3, ?_⟩
      intro m hm1 hm2
      by_cases e : m = j
      · subst e
        rw [decide_eq_false hfree] at hc
        simpa using hc.symm
      · exact h4 m (by omega) hm2

theorem scan_byte_none (a : Nat) (ha : a < 256) :
    ∀ fuel j, j + fuel ≤ 8 → scan_byte a fuel j = none →
      ∀ m, j ≤ m → m < j + fuel → maskBit a m = true := by
  intro fuel
  induction fuel with
  | zero => intro j _ _ m h1 h2; omega
  | succ n ih =>
    intro j hj h m hm1 hm2
    rw [scan_byte] at h
    have hc := maskBit_compl a ha j (by omega)
    by_cases hfree : (255 - a) &&& (128 >>> j) ≠ 0
    · rw [if_pos hfree] at h
      simp at h
    · rw [if_neg hfree] at h
      by_cases e : m = j
      · subst e
        rw [decide_eq_false hfree] at hc
        simpa using hc.symm
      · exact ih (j + 1) (by omega) h m (by omega) (by omega)

theorem bitSet_of_byte (s : FS) (i : Nat) (h : ∀ m, m < 8 → maskBit (block_map s i) m = true)
    (k : Nat) (hk : k / 8 = i) : bitSet s k = true := by
  rw [bitSet_eq, hk]
  exact h _ (Nat.mod_lt _ (by omega))

/-- What the outer loop returns from byte `i` when every bit before byte `i` is set:
either the lowest clear bit of the bytes it visits, or `-1` when they are all set. -/
theorem ffb_loop_spec (sc : Bool) (s : FS) :
    ∀ todo i, i + todo ≤ 756 → (∀ k, k < 8 * i → bitSet s k = true) →
      ∃ r, ffb_loop sc s todo i = .ok r ∧
        ((r = -1 ∧ ∀ k, k < 8 * (i + todo) → bitSet s k = true) ∨
          ∃ b : Nat, r = (b : Int) ∧ 8 * i ≤ b ∧ b < 8 * (i + todo) ∧ bitSet s b = false ∧
            ∀ k, k < b → bitSet s k = true) := by
  intro todo
  induction todo with
  | zero =>
    intro i _ hall
    exact ⟨-1, rfl, Or.inl ⟨rfl, by simpa using hall⟩⟩
  | succ n ih =>
    intro i hi hall
    have hlt : block_map s i < 256 := rd8_lt _ _ _
    have next : (∀ m, m < 8 → maskBit (block_map s i) m = true) →
        ∃ r, ffb_loop sc s n (i + 1) = .ok r ∧
          ((r = -1 ∧ ∀ k, k < 8 * (i + (n + 1)) → bitSet s k = true) ∨
            ∃ b : Nat, r = (b : Int) ∧ 8 * i ≤ b ∧ b < 8 * (i + (n + 1)) ∧ bitSet s b = false ∧
              ∀ k, k < b → bitSet s k = true) := by
      intro hbyte
      have hall1 : ∀ k, k < 8 * (i + 1) → bitSet s k = true := by
        intro k hk
        by_cases hk1 : k < 8 * i
        · exact hall k hk1
        · exact bitSet_of_byte s i hbyte k (by omega)
      obtain ⟨r, hr, hcase⟩ := ih (i + 1) (by omega) hall1
      refine ⟨r, hr, ?_⟩
      rcases hcase with ⟨h1, h2⟩ | ⟨b, h1, h2, h3, h4, h5⟩
      · left
        exact ⟨h1, fun k hk => h2 k (by omega)⟩
      · right
        exact ⟨b, h1, by omega, by omega, h4, h5⟩
    rw [ffb_loop, if_neg (by omega)]
    by_cases hff : (!sc && block_map s i == 255) = true
    · rw [if_pos hff]
      apply next
      intro m hm
      have : block_map s i = 255 := by
        simp only [Bool.and_eq_true, beq_iff_eq] at hff
        exact hff.2
      rw [this]
      exact maskBit_full m hm
    · rw [if_neg hff]
      cases hsc : scan_byte (block_map s i) 8 0 with
      | none =>
        dsimp only
        apply next
        intro m hm
        exact scan_byte_none _ hlt 8 0 (by omega) hsc m (by omega) (by omega)
      | some j =>
        dsimp only
        obtain ⟨_, h2, h3, h4⟩ := scan_byte_some _ hlt 8 0 j (by omega) hsc
        refine ⟨_, rfl, Or.inr ⟨8 * i + j, rfl, by omega, by omega, ?_, ?_⟩⟩
        · rw [bitSet_eq]
          have e1 : (8 * i + j) / 8 = i := by omega
          have e2 : (8 * i + j) % 8 = j := by omega
          rw [e1, e2]
          exact h3
        · intro k hk
          by_cases hk1 : k < 8 * i
          · exact hall k hk1
          · rw [bitSet_eq]
            have e1 : k / 8 = i := by omega
            rw [e1]
            exact h4 _ (by omega) (by omega)

theorem tdiv8_bound (n : Int) :
    (8 * (Int.tdiv n 8).toNat : Int) ≤ max n 0 ∧ (n ≤ 6048 → (Int.tdiv n 8).toNat ≤ 756) := by
  by_cases h : 0 ≤ n
  · rw [Int.tdiv_eq_ediv h (by omega)]
    omega
  · have e : Int.tdiv n 8 = -((-n) / 8) := by
      have := Int.neg_tdiv (-n) 8
      rw [neg_neg] at this
      rw [this, Int.tdiv_eq_ediv (by omega) (by omega)]
    rw [e]
    omega

/-! ## Frame and invariant lemmas for the allocator -/

theorem rd32_of_mem {s t : FS} {b o : Nat} (h : ∀ k, k < 4 → t.mem b (o + k) = s.mem b (o + k)) :
    rd32 t b o = rd32 s b o :=
  rd32_congr s t b o (fun k hk => rd8_of_mem (h k hk))

theorem root_block_markUsed (s : FS) (i : Nat) : root_block (markUsed s i) = root_block s := by
  unfold root_block
  exact rd32_of_mem (fun k hk => mem_markUsed s i 0 _ (by omega))

theorem sb_flags_markUsed (s : FS) (i : Nat) : sb_flags (markUsed s i) = sb_flags s := by
  unfold sb_flags
  exact rd8_of_mem (mem_markUsed s i 0 _ (by omega))

theorem inv32_markUsed (s : FS) (i : Nat) (hi : i < 6048) (hb : bitSet s i = false)
    (h : FreeCountInv32 s) : FreeCountInv32 (markUsed s i) := by
  unfold FreeCountInv32 at *
  rw [num_free_markUsed, num_blocks_markUsed, popcount_markUsed s i hi hb, h]
  unfold toInt32
  push_cast
  omega

theorem inv32_markFree (s : FS) (i : Nat) (hi : i < 6048) (hb : bitSet s i = true)
    (h : FreeCountInv32 s) : FreeCountInv32 (markFree s i) := by
  unfold FreeCountInv32 at *
  have hp := popcount_markFree s i hi hb
  rw [num_free_markFree, num_blocks_markFree, h]
  unfold toInt32
  omega

theorem inv_markUsed (s : FS) (i : Nat) (hi : i < 6048) (hb : bitSet s i = false)
    (hn : 0 ≤ num_blocks s) (h : FreeCountInv s) : FreeCountInv (markUsed s i) := by
  unfold FreeCountInv at *
  have hp := popcount_le s
  have hr := rd32_range s 0 256
  rw [num_free_markUsed, num_blocks_markUsed, popcount_markUsed s i hi hb, h]
  unfold num_blocks at hn
  unfold toInt32 num_blocks
  push_cast
  omega

theorem inv_markFree (s : FS) (i : Nat) (hi : i < 6048) (hb : bitSet s i = true)
    (hn : 0 ≤ num_blocks s) (h : FreeCountInv s) : FreeCountInv (markFree s i) := by
  unfold FreeCountInv at *
  have hp := popcount_markFree s i hi hb
  have hl := popcount_le s
  have hr := rd32_range s 0 256
  rw [num_free_markFree, num_blocks_markFree, h]
  unfold num_blocks at hn
  unfold toInt32 num_blocks
  omega

theorem inv_formatted (init : Nat → Nat → Nat) (name : List Nat) (nblk : Int)
    (h1 : 32 ≤ nblk) (h2 : nblk ≤ 6048) : FreeCountInv (formatted init name nblk) := by
  unfold FreeCountInv
  rw [num_free_formatted _ _ _ h1 h2, num_blocks_formatted _ _ _ h1 h2, popcount_formatted]
  rfl

theorem inv32_of_inv (s : FS) (h : FreeCountInv s) : FreeCountInv32 s := by
  unfold FreeCountInv at h
  unfold FreeCountInv32
  rw [← h]
  have := rd32_range s 0 264
  unfold num_free_blocks
  exact (toInt32_of_range _ this.1 this.2).symm

/-- Along `set_block` / `clear_block` calls the block count stays put and the invariant holds. -/
theorem reach_inv (bound : Nat) (hb : bound ≤ 6048) (s0 : FS) (hn : 0 ≤ num_blocks s0)
    (h0 : FreeCountInv s0) :
    ∀ s, Reach bound s0 s → FreeCountInv s ∧ num_blocks s = num_blocks s0 := by
  intro s hs
  induction hs with
  | start => exact ⟨h0, rfl⟩
  | set s t i _ hi hstep ih =>
    rw [set_block_eq s i (by omega)] at hstep
    have e : t = if bitSet s i = true then s else markUsed s i := (Except.ok.inj hstep).symm
    by_cases hbit : bitSet s i = true
    · rw [if_pos hbit] at e; subst e; exact ih
    · rw [if_neg hbit] at e; subst e
      have hbit : bitSet s i = false := by simpa using hbit
      exact ⟨inv_markUsed s i (by omega) hbit (by rw [ih.2]; exact hn) ih.1,
        by rw [num_blocks_markUsed, ih.2]⟩
  | clear s t i _ hi hstep ih =>
    rw [clear_block_eq s i (by omega)] at hstep
    have e : t = if bitSet s i = true then markFree s i else s := (Except.ok.inj hstep).symm
    by_cases hbit : bitSet s i = true
    · rw [if_pos hbit] at e; subst e
      exact ⟨inv_markFree s i (by omega) hbit (by rw [ih.2]; exact hn) ih.1,
        by rw [num_blocks_markFree, ih.2]⟩
    · rw [if_neg hbit] at e; subst e; exact ih

theorem reach_set_blocks (bound : Nat) (s0 : FS) :
    ∀ (l : List Nat) (s t : FS), Reach bound s0 s → (∀ i ∈ l, i < bound) →
      set_blocks l s = .ok t → Reach bound s0 t := by
  intro l
  induction l with
  | nil =>
    intro s t hs _ h
    rw [set_blocks] at h
    rw [← Except.ok.inj h]; exact hs
  | cons i rest ih =>
    intro s t hs hl h
    rw [set_blocks] at h
    cases hstep : set_block (i : Int) s with
    | error f => rw [hstep] at h; simp at h
    | ok u =>
      rw [hstep] at h
      exact ih u t (Reach.set s u i hs (hl i (List.mem_cons_self _ _)) hstep)
        (fun k hk => hl k (List.mem_cons_of_mem _ hk)) h

/-! ## The fuel of the two loops is never the reason a result is returned -/

theorem fpi_body_grows (s : FS) (writeable : Int) (w w1 : Walk)
    (h : fpi_body s writeable w = .again w1) : w.current_name.length < w1.current_name.length := by
  unfold fpi_body at h
  by_cases h1 : 255 < w.current_name.length + 1 + 1
  · rw [if_pos h1] at h; exact BodyEnd.noConfusion h
  · rw [if_neg h1] at h
    cases ht : w.toks with
    | nil => rw [ht] at h; exact BodyEnd.noConfusion h
    | cons next_dir rest =>
      rw [ht] at h
      dsimp only at h
      by_cases h2 : 255 < w.current_name.length + 1 + next_dir.length + 1
      · rw [if_pos h2] at h; exact BodyEnd.noConfusion h
      · rw [if_neg h2] at h
        cases hg : get_subdirs s w.current_dir with
        | error f => rw [hg] at h; exact BodyEnd.noConfusion h
        | ok subdirs =>
          rw [hg] at h
          dsimp only at h
          by_cases h3 : 0 < inode_file_size s w.current_dir
          · rw [if_pos h3] at h
            cases hb : blockAt s (rd32 s subdirs 0) with
            | error f => rw [hb] at h; exact BodyEnd.noConfusion h
            | ok node =>
              rw [hb] at h
              dsimp only at h
              by_cases h4 : w.current_name ++ [47] ++ next_dir = inode_name s node
              · rw [if_pos h4] at h
                by_cases h5 : dir_usable s node writeable = true
                · rw [if_pos h5] at h
                  have e := BodyEnd.again.inj h
                  rw [← e]
                  simp only [List.length_append, List.length_singleton]
                  omega
                · rw [if_neg h5] at h; exact BodyEnd.noConfusion h
              · rw [if_neg h4] at h; exact BodyEnd.noConfusion h
          · rw [if_neg h3] at h
            by_cases h5 : dir_usable s w.current_dir writeable = true
            · rw [if_pos h5] at h
              have e := BodyEnd.again.inj h
              rw [← e]
              simp only [List.length_append, List.length_singleton]
              omega
            · rw [if_neg h5] at h; exact BodyEnd.noConfusion h
theorem fpi_body_full (s : FS) (writeable : Int) (w : Walk) (h : 254 ≤ w.current_name.length) :
    fpi_body s writeable w = .ret (.error .pathBuffer) := by
  unfold fpi_body
  rw [if_pos (by omega)]

/-- With as much fuel as bytes left in `current_name`, one more unit of fuel changes nothing. -/
theorem fpi_loop_fuel_succ (s : FS) (writeable : Int) (depth : Nat) :
    ∀ (fuel : Nat) (w : Walk), 256 ≤ fuel + w.current_name.length →
      fpi_loop s writeable depth (fuel + 1) w = fpi_loop s writeable depth fuel w := by
  intro fuel
  induction fuel with
  | zero =>
    intro w h
    rw [fpi_loop, fpi_loop]
    by_cases hd : depth ≤ w.j
    · rw [if_pos hd, if_pos hd]
    · rw [if_neg hd, if_neg hd, fpi_body_full s writeable w (by omega)]
  | succ n ih =>
    intro w h
    rw [fpi_loop.eq_2, fpi_loop.eq_2]
    by_cases hd : depth ≤ w.j
    · rw [if_pos hd, if_pos hd]
    · rw [if_neg hd, if_neg hd]
      cases hb : fpi_body s writeable w with
      | ret r => rfl
      | again w1 =>
        dsimp only
        have := fpi_body_grows s writeable w w1 hb
        exact ih w1 (by omega)

/-- The 255 units of fuel `find_parent_inode` starts with are enough: more fuel gives
the same result. -/
theorem fpi_loop_fuel_add (s : FS) (writeable : Int) (depth : Nat) (fuel : Nat) (w : Walk)
    (h : 256 ≤ fuel + w.current_name.length) :
    ∀ extra, fpi_loop s writeable depth (fuel + extra) w = fpi_loop s writeable depth fuel w := by
  intro extra
  induction extra with
  | zero => rfl
  | succ n ih =>
    rw [← ih, ← Nat.add_assoc]
    exact fpi_loop_fuel_succ s writeable depth (fuel + n) w (by omega)

/-- The result of the slot scan of `mkdir` started at an index in `[0, 256]`: the first
index from there whose entry is zero, or 256. -/
theorem scan_subdirs_spec (s : FS) (subdirs : Nat) :
    ∀ (fuel : Nat) (i : Int), 0 ≤ i → i ≤ 256 → 256 - i < (fuel : Int) →
      ∃ r, scan_subdirs s subdirs fuel i = .ok r ∧ i ≤ r ∧ r ≤ 256 ∧
        (∀ k : Int, i ≤ k → k < r → rd32 s subdirs (4 * k.toNat) ≠ 0) ∧
        (r < 256 → rd32 s subdirs (4 * r.toNat) = 0) := by
  intro fuel
  induction fuel with
  | zero => intro i h0 h1 h2; simp at h2; omega
  | succ n ih =>
    intro i h0 h1 h2
    rw [scan_subdirs, if_neg (by omega)]
    by_cases h256 : 256 ≤ i
    · rw [if_pos h256]
      exact ⟨i, rfl, le_refl _, h1, fun k hk1 hk2 => by omega, fun h => by omega⟩
    · rw [if_neg h256]
      by_cases hz : rd32 s subdirs (4 * i.toNat) ≠ 0
      · rw [if_pos hz]
        obtain ⟨r, hr, hr1, hr2, hr3, hr4⟩ := ih (i + 1) (by omega) (by omega)
          (by push_cast at h2; omega)
        refine ⟨r, hr, by omega, hr2, ?_, hr4⟩
        intro k hk1 hk2
        by_cases e : k = i
        · rw [e]; exact hz
        · exact hr3 k (by omega) hk2
      · rw [if_neg hz]
        exact ⟨i, rfl, le_refl _, h1, fun k hk1 hk2 => by omega,
          fun _ => by simpa using hz⟩

/-! ## Claims about `format` and the allocator -/

/-- C1: for every name, every flags value and every N with 32 <= N <= 6048, the state
`format(name, flags, N)` returns has bitmap bit b set iff b < 2 (for b < 6048),
num_blocks N, root_block 1, num_free_blocks N - 2, and in block 1 an inode with path
"/", flags DIR_WRITE and file_size 0; and `format` does return a state whenever the
name fits the 255-byte name field it is copied into. -/
theorem C1_format_state (init : Nat → Nat → Nat) (name : List Nat) (flags : Nat) (N : Int)
    (h1 : 32 ≤ N) (h2 : N ≤ 6048) :
    (name.length ≤ 254 → ∃ s, format init name flags N = .ok s) ∧
    (∀ s, format init name flags N = .ok s →
      (∀ b, b < 6048 → (bitSet s b = true ↔ b < 2)) ∧
      num_blocks s = N ∧ root_block s = 1 ∧ num_free_blocks s = N - 2 ∧
      inode_name s 1 = [47] ∧ inode_flags s 1 = DIR_WRITE ∧ inode_file_size s 1 = 0) := by
  refine ⟨fun hname => ⟨_, format_eq init name flags N hname h1 h2⟩, ?_⟩
  intro s hs
  rw [(format_ok_inv init name flags N s h1 h2 hs).2]
  refine ⟨?_, num_blocks_formatted _ _ _ h1 h2, root_block_formatted _ _ _,
    num_free_formatted _ _ _ h1 h2, inode_name_formatted _ _ _, inode_flags_formatted _ _ _,
    inode_file_size_formatted _ _ _⟩
  intro b hb
  rw [bitSet_formatted _ _ _ _ hb]
  simp

theorem C1_format_state_witness :
    (∃ s, format zeroInit testName 1 32 = .ok s) ∧
    (∀ s, format zeroInit testName 1 32 = .ok s →
      (∀ b, b < 6048 → (bitSet s b = true ↔ b < 2)) ∧
      num_blocks s = 32 ∧ root_block s = 1 ∧ num_free_blocks s = 32 - 2 ∧
      inode_name s 1 = [47] ∧ inode_flags s 1 = DIR_WRITE ∧ inode_file_size s 1 = 0) :=
  ⟨(C1_format_state zeroInit testName 1 32 (by decide) (by decide)).1 (by decide),
    (C1_format_state zeroInit testName 1 32 (by decide) (by decide)).2⟩

/-- C2: the free-count invariant num_free_blocks == num_blocks - popcount(block_map)
holds in the state `format(name, flags, N)` returns, 32 <= N <= 6048 (and `format`
returns one whenever the name fits its field); `set_block(i)` and `clear_block(i)`,
i < 6048, preserve it in every state that satisfies it (the subtraction being that of
C `int`s; over the integers as soon as num_blocks is not negative); hence it holds,
over the integers, in every state reached from the formatted one by `set_block` /
`clear_block` calls. -/
theorem C2_free_count_invariant (init : Nat → Nat → Nat) (name : List Nat) (flags : Nat)
    (N : Int) (h1 : 32 ≤ N) (h2 : N ≤ 6048) :
    (name.length ≤ 254 → ∃ s0, format init name flags N = .ok s0) ∧
    (∀ s0, format init name flags N = .ok s0 →
      FreeCountInv s0 ∧ FreeCountInv32 s0 ∧
      ∀ s, Reach 6048 s0 s → FreeCountInv s ∧ FreeCountInv32 s) ∧
    (∀ (s : FS) (i : Nat), i < 6048 → FreeCountInv32 s →
      (∃ t, set_block (i : Int) s = .ok t ∧ FreeCountInv32 t) ∧
      (∃ t, clear_block (i : Int) s = .ok t ∧ FreeCountInv32 t)) ∧
    (∀ (s : FS) (i : Nat), i < 6048 → 0 ≤ num_blocks s → FreeCountInv s →
      (∃ t, set_block (i : Int) s = .ok t ∧ FreeCountInv t) ∧
      (∃ t, clear_block (i : Int) s = .ok t ∧ FreeCountInv t)) := by
  have hinv := inv_formatted init name N h1 h2
  refine ⟨fun hname => ⟨_, format_eq init name flags N hname h1 h2⟩, ?_, ?_, ?_⟩
  · intro s0 hs0
    rw [(format_ok_inv init name flags N s0 h1 h2 hs0).2]
    refine ⟨hinv, inv32_of_inv _ hinv, ?_⟩
    intro s hs
    have hn : 0 ≤ num_blocks (formatted init name N) := by
      rw [num_blocks_formatted _ _ _ h1 h2]; omega
    have := (reach_inv 6048 (le_refl _) _ hn hinv s hs).1
    exact ⟨this, inv32_of_inv _ this⟩
  · intro s i hi h
    rw [set_block_eq s i hi, clear_block_eq s i hi]
    by_cases hbit : bitSet s i = true
    · rw [if_pos hbit, if_pos hbit]
      exact ⟨⟨s, rfl, h⟩, ⟨_, rfl, inv32_markFree s i hi hbit h⟩⟩
    · rw [if_neg hbit, if_neg hbit]
      exact ⟨⟨_, rfl, inv32_markUsed s i hi (by simpa using hbit) h⟩, ⟨s, rfl, h⟩⟩
  · intro s i hi hn h
    rw [set_block_eq s i hi, clear_block_eq s i hi]
    by_cases hbit : bitSet s i = true
    · rw [if_pos hbit, if_pos hbit]
      exact ⟨⟨s, rfl, h⟩, ⟨_, rfl, inv_markFree s i hi hbit hn h⟩⟩
    · rw [if_neg hbit, if_neg hbit]
      exact ⟨⟨_, rfl, inv_markUsed s i hi (by simpa using hbit) hn h⟩, ⟨s, rfl, h⟩⟩

theorem C2_free_count_invariant_witness :
    (∃ s0, format zeroInit [] 1 40 = .ok s0) ∧
    (∀ s0, format zeroInit [] 1 40 = .ok s0 →
      FreeCountInv s0 ∧ FreeCountInv32 s0 ∧
      ∀ s, Reach 6048 s0 s → FreeCountInv s ∧ FreeCountInv32 s) ∧
    (∀ (s : FS) (i : Nat), i < 6048 → FreeCountInv32 s →
      (∃ t, set_block (i : Int) s = .ok t ∧ FreeCountInv32 t) ∧
      (∃ t, clear_block (i : Int) s = .ok t ∧ FreeCountInv32 t)) ∧
    (∀ (s : FS) (i : Nat), i < 6048 → 0 ≤ num_blocks s → FreeCountInv s →
      (∃ t, set_block (i : Int) s = .ok t ∧ FreeCountInv t) ∧
      (∃ t, clear_block (i : Int) s = .ok t ∧ FreeCountInv t)) :=
  ⟨(C2_free_count_invariant zeroInit [] 1 40 (by decide) (by decide)).1 (by decide),
    (C2_free_count_invariant zeroInit [] 1 40 (by decide) (by decide)).2⟩

/-- C3: in every state with num_blocks <= 6048, `first_free_block()` returns, and
whenever it returns a block number b other than -1, then 0 <= b < num_blocks, bit b of
the bitmap (mask 0x80 >> (b mod 8) of byte b div 8) is clear, and every bit with a
smaller index is set: b is the lowest-indexed free block. -/
theorem C3_first_free_block_lowest (signedChar : Bool) (s : FS) (h : num_blocks s ≤ 6048) :
    ∃ r, first_free_block signedChar s = .ok r ∧
      (r ≠ -1 → 0 ≤ r ∧ r < num_blocks s ∧ bitSet s r.toNat = false ∧
        ∀ k, k < r.toNat → bitSet s k = true) := by
  unfold first_free_block
  by_cases hz : num_free_blocks s = 0
  · rw [if_pos hz]
    exact ⟨-1, rfl, fun hne => absurd rfl hne⟩
  · rw [if_neg hz]
    obtain ⟨hb1, hb2⟩ := tdiv8_bound (num_blocks s)
    obtain ⟨r, hr, hcase⟩ := ffb_loop_spec signedChar s (Int.tdiv (num_blocks s) 8).toNat 0
      (by have := hb2 h; omega) (fun k hk => by omega)
    refine ⟨r, hr, fun hne => ?_⟩
    rcases hcase with ⟨h1, _⟩ | ⟨b, h1, _, h3, h4, h5⟩
    · exact absurd h1 hne
    · subst h1
      rw [Int.toNat_ofNat]
      refine ⟨by omega, ?_, h4, h5⟩
      have : ((b : Int)) < 8 * ((Int.tdiv (num_blocks s) 8).toNat : Int) := by
        have : b < 8 * (Int.tdiv (num_blocks s) 8).toNat := by omega
        exact_mod_cast this
      omega

theorem C3_first_free_block_lowest_witness :
    num_blocks (formatted zeroInit [] 32) ≤ 6048 ∧
    ∃ r, first_free_block true (formatted zeroInit [] 32) = .ok r ∧
      (r ≠ -1 → 0 ≤ r ∧ r < num_blocks (formatted zeroInit [] 32) ∧
        bitSet (formatted zeroInit [] 32) r.toNat = false ∧
        ∀ k, k < r.toNat → bitSet (formatted zeroInit [] 32) k = true) :=
  ⟨by decide, C3_first_free_block_lowest true (formatted zeroInit [] 32) (by decide)⟩

set_option maxRecDepth 100000 in
/-- C4 (fails on the code): `format(_, 1, 33)` followed by `set_block(2)`, ...,
`set_block(31)` reaches a state with num_free_blocks == 1, block 32 free, in which
`first_free_block()` nevertheless returns -1: the scan stops after num_blocks/8 = 4
bytes and never looks at block 32. -/
theorem C4_no_space_despite_free_block :
    ∃ s0 t, format zeroInit [] 1 33 = .ok s0 ∧ Reach 33 s0 t ∧
      num_free_blocks t = 1 ∧ bitSet t 32 = false ∧
      first_free_block true t = .ok (-1) ∧ first_free_block false t = .ok (-1) := by
  have hfmt : format zeroInit [] 1 33 = .ok (formatted zeroInit [] 33) :=
    format_eq zeroInit [] 1 33 (by decide) (by decide) (by decide)
  have h1 : (set_blocks (List.range' 2 30) (formatted zeroInit [] 33)).map
      (fun t => (num_free_blocks t, bitSet t 32, first_free_block true t,
        first_free_block false t)) = .ok (1, false, .ok (-1), .ok (-1)) := by decide
  cases hst : set_blocks (List.range' 2 30) (formatted zeroInit [] 33) with
  | error f => rw [hst] at h1; simp [Except.map] at h1
  | ok t =>
    rw [hst] at h1
    have h2 := Except.ok.inj h1
    simp only [Prod.mk.injEq] at h2
    refine ⟨_, t, hfmt, ?_, h2.1, h2.2.1, h2.2.2.1, h2.2.2.2⟩
    refine reach_set_blocks 33 _ _ _ t Reach.start ?_ hst
    intro i hi
    rw [List.mem_range'_1] at hi
    omega

/-- C5: for every state and every block index i < 6048: if bit i is clear,
`set_block(i)` sets bit i, leaves every other bitmap bit, every byte outside the
bitmap byte of i and the num_free_blocks field (so every other superblock field and
every other block) unchanged, and decreases num_free_blocks by exactly 1 (as a C
`int`: the decrement wraps only from INT_MIN); if bit i is set, `set_block(i)` leaves
the state unchanged.  So `set_block(i)` twice gives the state of `set_block(i)` once. -/
theorem C5_set_block_effect (s : FS) (i : Nat) (hi : i < 6048) :
    (bitSet s i = false →
      ∃ t, set_block (i : Int) s = .ok t ∧ bitSet t i = true ∧
        (∀ k, k ≠ i → bitSet t k = bitSet s k) ∧
        t.nblocks = s.nblocks ∧
        (∀ b o, ¬ (b = 0 ∧ (o = 268 + i / 8 ∨ (264 ≤ o ∧ o < 268))) → t.mem b o = s.mem b o) ∧
        num_blocks t = num_blocks s ∧ root_block t = root_block s ∧ sb_flags t = sb_flags s ∧
        num_free_blocks t = toInt32 (num_free_blocks s - 1) ∧
        (-2147483648 < num_free_blocks s → num_free_blocks t = num_free_blocks s - 1)) ∧
    (bitSet s i = true → set_block (i : Int) s = .ok s) ∧
    (∀ t, set_block (i : Int) s = .ok t → set_block (i : Int) t = .ok t) := by
  refine ⟨?_, ?_, ?_⟩
  · intro hb
    refine ⟨markUsed s i, ?_, ?_, ?_, rfl, mem_markUsed s i, num_blocks_markUsed s i,
      root_block_markUsed s i, sb_flags_markUsed s i, num_free_markUsed s i, ?_⟩
    · rw [set_block_eq s i hi, if_neg (by simp [hb])]
    · rw [bitSet_markUsed]; simp
    · intro k hk
      rw [bitSet_markUsed]; simp [hk]
    · intro hmin
      rw [num_free_markUsed]
      have := rd32_range s 0 264
      unfold num_free_blocks at hmin
      unfold num_free_blocks
      exact toInt32_of_range _ (by omega) (by omega)
  · intro hb
    rw [set_block_eq s i hi, if_pos hb]
  · intro t ht
    rw [set_block_eq s i hi] at ht
    have e := (Except.ok.inj ht).symm
    rw [set_block_eq t i hi]
    by_cases hb : bitSet s i = true
    · rw [if_pos hb] at e
      rw [e, if_pos hb]
    · rw [if_neg hb] at e
      have : bitSet t i = true := by rw [e, bitSet_markUsed]; simp
      rw [if_pos this]

theorem C5_set_block_effect_witness :
    (bitSet (formatted zeroInit [] 32) 5 = false →
      ∃ t, set_block ((5 : Nat) : Int) (formatted zeroInit [] 32) = .ok t ∧ bitSet t 5 = true ∧
        (∀ k, k ≠ 5 → bitSet t k = bitSet (formatted zeroInit [] 32) k) ∧
        t.nblocks = (formatted zeroInit [] 32).nblocks ∧
        (∀ b o, ¬ (b = 0 ∧ (o = 268 + 5 / 8 ∨ (264 ≤ o ∧ o < 268))) →
          t.mem b o = (formatted zeroInit [] 32).mem b o) ∧
        num_blocks t = num_blocks (formatted zeroInit [] 32) ∧
        root_block t = root_block (formatted zeroInit [] 32) ∧
        sb_flags t = sb_flags (formatted zeroInit [] 32) ∧
        num_free_blocks t = toInt32 (num_free_blocks (formatted zeroInit [] 32) - 1) ∧
        (-2147483648 < num_free_blocks (formatted zeroInit [] 32) →
          num_free_blocks t = num_free_blocks (formatted zeroInit [] 32) - 1)) ∧
    (bitSet (formatted zeroInit [] 32) 5 = true →
      set_block ((5 : Nat) : Int) (formatted zeroInit [] 32) = .ok (formatted zeroInit [] 32)) ∧
    (∀ t, set_block ((5 : Nat) : Int) (formatted zeroInit [] 32) = .ok t →
      set_block ((5 : Nat) : Int) t = .ok t) :=
  C5_set_block_effect (formatted zeroInit [] 32) 5 (by decide)

/-- C6 (as stated, fails): on the freshly formatted 32-block filesystem bit 0 is set;
`set_block(0)` changes nothing and `clear_block(0)` then raises num_free_blocks from
30 to 31. -/
theorem C6_counterexample :
    ∃ s s1 s2, format zeroInit [] 1 32 = .ok s ∧ bitSet s 0 = true ∧
      set_block 0 s = .ok s1 ∧ clear_block 0 s1 = .ok s2 ∧
      num_free_blocks s = 30 ∧ num_free_blocks s2 = 31 := by
  refine ⟨formatted zeroInit [] 32, formatted zeroInit [] 32,
    markFree (formatted zeroInit [] 32) 0,
    format_eq zeroInit [] 1 32 (by decide) (by decide) (by decide), by decide, ?_, ?_,
    by decide, by decide⟩
  · have := set_block_eq (formatted zeroInit [] 32) 0 (by decide)
    rw [if_pos (by decide)] at this
    exact this
  · have := clear_block_eq (formatted zeroInit [] 32) 0 (by decide)
    rw [if_pos (by decide)] at this
    exact this

/-- C6 (amended): for every state and every block index i < 6048 whose bit is clear,
`set_block(i)` followed by `clear_block(i)` leaves num_free_blocks, and bit i, as they
were before the two calls; if bit i is set beforehand, `set_block(i)` changes nothing
and `clear_block(i)` then clears the bit and increments num_free_blocks. -/
theorem C6_set_then_clear (s : FS) (i : Nat) (hi : i < 6048) :
    (bitSet s i = false →
      ∃ s1 s2, set_block (i : Int) s = .ok s1 ∧ clear_block (i : Int) s1 = .ok s2 ∧
        num_free_blocks s2 = num_free_blocks s ∧ bitSet s2 i = false) ∧
    (bitSet s i = true →
      ∃ s2, set_block (i : Int) s = .ok s ∧ clear_block (i : Int) s = .ok s2 ∧
        num_free_blocks s2 = toInt32 (num_free_blocks s + 1) ∧ bitSet s2 i = false) := by
  constructor
  · intro hb
    have h1 : bitSet (markUsed s i) i = true := by rw [bitSet_markUsed]; simp
    refine ⟨markUsed s i, markFree (markUsed s i) i, ?_, ?_, ?_, ?_⟩
    · rw [set_block_eq s i hi, if_neg (by simp [hb])]
    · rw [clear_block_eq _ i hi, if_pos h1]
    · rw [num_free_markFree, num_free_markUsed]
      have := rd32_range s 0 264
      unfold num_free_blocks toInt32
      omega
    · rw [bitSet_markFree]; simp
  · intro hb
    refine ⟨markFree s i, ?_, ?_, num_free_markFree s i, ?_⟩
    · rw [set_block_eq s i hi, if_pos hb]
    · rw [clear_block_eq s i hi, if_pos hb]
    · rw [bitSet_markFree]; simp

theorem C6_set_then_clear_witness :
    (bitSet (formatted zeroInit [] 32) 7 = false →
      ∃ s1 s2, set_block ((7 : Nat) : Int) (formatted zeroInit [] 32) = .ok s1 ∧
        clear_block ((7 : Nat) : Int) s1 = .ok s2 ∧
        num_free_blocks s2 = num_free_blocks (formatted zeroInit [] 32) ∧
        bitSet s2 7 = false) ∧
    (bitSet (formatted zeroInit [] 32) 7 = true →
      ∃ s2, set_block ((7 : Nat) : Int) (formatted zeroInit [] 32)
          = .ok (formatted zeroInit [] 32) ∧
        clear_block ((7 : Nat) : Int) (formatted zeroInit [] 32) = .ok s2 ∧
        num_free_blocks s2 = toInt32 (num_free_blocks (formatted zeroInit [] 32) + 1) ∧
        bitSet s2 7 = false) :=
  C6_set_then_clear (formatted zeroInit [] 32) 7 (by decide)

/-! ## Claims about `mkdir` -/

set_option maxRecDepth 100000 in
/-- C7 (fails on the code): on the filesystem of the testing `main`,
`mkdir("/test", DIR_WRITE)` returns SUCCESS but leaves the root inode's file_size at 0,
and `find_parent_inode("/test/y", w)` afterwards does not return an inode: with no
entry to scan it appends "/test" to `current_name` until the 255-byte buffer is full. -/
theorem C7_mkdir_does_not_register_child :
    (mainFS >>= mkdir true 0 pathTest DIR_WRITE).map
        (fun r => (r.1, inode_file_size r.2 1)) = .ok (SUCCESS, 0) ∧
    (mainFS >>= mkdir true 0 pathTest DIR_WRITE >>=
        fun r => find_parent_inode r.2 pathTestY 1) = .error .pathBuffer ∧
    (mainFS >>= mkdir true 0 pathTest DIR_WRITE >>=
        fun r => find_parent_inode r.2 pathTestY 0) = .error .pathBuffer := by
  decide

set_option maxRecDepth 100000 in
/-- C8 (fails on the code): with a root directory whose children array holds 256
entries, `mkdir("/d", DIR_WRITE)` returns FAILURE after it has marked blocks 2 and 3
used: num_free_blocks goes from 30 to 28 and nothing is rolled back. -/
theorem C8_mkdir_failure_keeps_allocations :
    find_parent_inode fullDirImage pathD 1 = .ok (some 1) ∧
    inode_indirect_refs fullDirImage 1 = 5 ∧
    (bitSet fullDirImage 2, bitSet fullDirImage 3, num_free_blocks fullDirImage)
      = (false, false, 30) ∧
    (mkdir true 0 pathD DIR_WRITE fullDirImage).map
        (fun r => (r.1, bitSet r.2 2, bitSet r.2 3, num_free_blocks r.2))
      = .ok (FAILURE, true, true, 28) := by
  decide

set_option maxRecDepth 100000 in
/-- C9 (fails on the code): after `format(_, 1, 32)` and `set_block(2..31)` no block
is free and the root resolves as writable parent of "/d", yet `mkdir("/d", DIR_WRITE)`
does not return failure: it hands the -1 of `first_free_block` to `set_block`, which
indexes `block_map[-1]`.  With block 31 alone left free the same happens at the second
allocation, after block 31 has been marked used. -/
theorem C9_mkdir_passes_no_space_to_set_block :
    (format zeroInit [] 1 32 >>= set_blocks (List.range' 2 30)).map
        (fun s => (num_free_blocks s, find_parent_inode s pathD 1, first_free_block true s))
      = .ok (0, .ok (some 1), .ok (-1)) ∧
    (format zeroInit [] 1 32 >>= set_blocks (List.range' 2 30) >>=
        mkdir true 0 pathD DIR_WRITE).map (fun r => r.1) = .error (.bitmapIndex (-1)) ∧
    (format zeroInit [] 1 32 >>= set_blocks (List.range' 2 29)).map
        (fun s => (num_free_blocks s, find_parent_inode s pathD 1, first_free_block true s))
      = .ok (1, .ok (some 1), .ok 31) ∧
    (format zeroInit [] 1 32 >>= set_blocks (List.range' 2 29) >>=
        mkdir true 0 pathD DIR_WRITE).map (fun r => r.1) = .error (.bitmapIndex (-1)) := by
  decide

set_option maxRecDepth 100000 in
/-- C10 (fails on the code): on the filesystem of the testing `main`,
`mkdir("/test", DIR_WRITE)` returns SUCCESS and stores block number 2 in the first empty
entry (entry 4) of the root's children array, but no inode is written: block 2 still
reads as an inode with empty path, flags 0 and indirect_refs 0, and no block of the
partition holds an inode whose path is "/test". -/
theorem C10_mkdir_writes_no_inode :
    (mainFS >>= mkdir true 0 pathTest DIR_WRITE).map
        (fun r => (r.1, rd32 r.2 0 16, inode_name r.2 2, inode_flags r.2 2,
          inode_indirect_refs r.2 2))
      = .ok (SUCCESS, 2, [], 0, 0) ∧
    (mainFS >>= mkdir true 0 pathTest DIR_WRITE).map
        (fun r => (List.range 32).filter (fun b => inode_name r.2 b == pathTest))
      = .ok [] ∧
    mainFS.map (fun s => (inode_indirect_refs s 1,
        (List.range 5).map (fun i => decide (rd32 s 0 (4 * i) = 0))))
      = .ok (0, [false, false, false, false, true]) := by
  decide

/-! ## What the lookup can return -/

/-- One pass of the lookup loop ends in a fault, in `NULL`, or at the loop test again
with a directory that passed both flag tests. -/
theorem fpi_body_cases (s : FS) (writeable : Int) (w : Walk) :
    (∃ f, fpi_body s writeable w = .ret (.error f)) ∨
    fpi_body s writeable w = .ret (.ok none) ∨
    (∃ w1, fpi_body s writeable w = .again w1 ∧
      dir_usable s w1.current_dir writeable = true) := by
  unfold fpi_body
  by_cases h1 : 255 < w.current_name.length + 1 + 1
  · rw [if_pos h1]; exact Or.inl ⟨_, rfl⟩
  · rw [if_neg h1]
    cases w.toks with
    | nil => exact Or.inl ⟨_, rfl⟩
    | cons next_dir rest =>
      dsimp only
      by_cases h2 : 255 < w.current_name.length + 1 + next_dir.length + 1
      · rw [if_pos h2]; exact Or.inl ⟨_, rfl⟩
      · rw [if_neg h2]
        cases get_subdirs s w.current_dir with
        | error f => exact Or.inl ⟨_, rfl⟩
        | ok subdirs =>
          dsimp only
          by_cases h3 : 0 < inode_file_size s w.current_dir
          · rw [if_pos h3]
            cases blockAt s (rd32 s subdirs 0) with
            | error f => exact Or.inl ⟨_, rfl⟩
            | ok node =>
              dsimp only
              by_cases h4 : w.current_name ++ [47] ++ next_dir = inode_name s node
              · rw [if_pos h4]
                by_cases h5 : dir_usable s node writeable = true
                · rw [if_pos h5]; exact Or.inr (Or.inr ⟨_, rfl, h5⟩)
                · rw [if_neg h5]; exact Or.inr (Or.inl rfl)
              · rw [if_neg h4]; exact Or.inr (Or.inl rfl)
          · rw [if_neg h3]
            by_cases h5 : dir_usable s w.current_dir writeable = true
            · rw [if_pos h5]; exact Or.inr (Or.inr ⟨_, rfl, h5⟩)
            · rw [if_neg h5]; exact Or.inr (Or.inl rfl)

theorem fpi_loop_some (s : FS) (writeable : Int) (depth : Nat) :
    ∀ (fuel : Nat) (w : Walk) (d : Nat),
      fpi_loop s writeable depth fuel w = .ok (some d) → dir_usable s d writeable = true := by
  intro fuel
  induction fuel with
  | zero =>
    intro w d h
    rw [fpi_loop] at h
    by_cases hd : depth ≤ w.j
    · rw [if_pos hd] at h
      by_cases hu : dir_usable s w.current_dir writeable = true
      · rw [if_pos hu] at h
        have e := Option.some.inj (Except.ok.inj h)
        rw [← e]; exact hu
      · rw [if_neg hu] at h
        exact Option.noConfusion (Except.ok.inj h)
    · rw [if_neg hd] at h
      exact Except.noConfusion h
  | succ n ih =>
    intro w d h
    rw [fpi_loop.eq_2] at h
    by_cases hd : depth ≤ w.j
    · rw [if_pos hd] at h
      by_cases hu : dir_usable s w.current_dir writeable = true
      · rw [if_pos hu] at h
        have e := Option.some.inj (Except.ok.inj h)
        rw [← e]; exact hu
      · rw [if_neg hu] at h
        exact Option.noConfusion (Except.ok.inj h)
    · rw [if_neg hd] at h
      rcases fpi_body_cases s writeable w with ⟨f, hb⟩ | hb | ⟨w1, hb, _⟩
      · rw [hb] at h; exact Except.noConfusion h
      · rw [hb] at h; exact Option.noConfusion (Except.ok.inj h)
      · rw [hb] at h; exact ih w1 d h

theorem dir_usable_flags (s : FS) (d : Nat) (writeable : Int)
    (h : dir_usable s d writeable = true) :
    inode_flags s d ≠ FILE_READ ∧ inode_flags s d ≠ FILE_WRITE ∧
      (writeable ≠ 0 → inode_flags s d = DIR_WRITE) := by
  unfold dir_usable at h
  simp only [Bool.and_eq_true, Bool.not_eq_true', Bool.or_eq_false_iff, beq_eq_false_iff_ne,
    Bool.and_eq_false_imp, bne_iff_ne, ne_eq, Decidable.not_not] at h
  exact ⟨h.1.1, h.1.2, fun hw => by
    have := h.2 hw
    simpa using this⟩

/-- Whatever inode `find_parent_inode(path, writeable)` returns, in any state and for
any path, has passed both flag tests: it is not a file (flags neither FILE_READ nor
FILE_WRITE) and, if writeable is non-zero, its flags are DIR_WRITE. -/
theorem returned_inode_passes_flag_tests (s : FS) (path : List Nat) (writeable : Int)
    (d : Nat) (h : find_parent_inode s path writeable = .ok (some d)) :
    inode_flags s d ≠ FILE_READ ∧ inode_flags s d ≠ FILE_WRITE ∧
      (writeable ≠ 0 → inode_flags s d = DIR_WRITE) := by
  unfold find_parent_inode at h
  by_cases hn : s.nblocks ≤ 1
  · rw [if_pos hn] at h; exact Except.noConfusion h
  · rw [if_neg hn] at h
    exact dir_usable_flags s d writeable (fpi_loop_some s writeable _ _ _ d h)

/-! ## Claims about path lookup -/

set_option maxRecDepth 100000 in
/-- C11 (fails on the code): the root has the two entries c0 = block 6 and c1 = block 7,
both writable directories, c0 with path "/z" and c1 with path "/a";
`find_parent_inode("/a/b", w)` returns `NULL`, not c1.  It does so too when the two
inodes carry the paths the walk itself accumulates ("//z" and "//a"): entry 0 does not
match and the `return NULL` inside the `for` loop ends the scan there.  Only with the
matching child at entry 0 is it found. -/
theorem C11_scan_stops_at_first_entry :
    (inode_file_size (twoChildImage [47, 122] [47, 97]) 1,
      get_subdirs (twoChildImage [47, 122] [47, 97]) 1,
      rd32 (twoChildImage [47, 122] [47, 97]) 5 0,
      rd32 (twoChildImage [47, 122] [47, 97]) 5 4) = (2, .ok 5, 6, 7) ∧
    (inode_name (twoChildImage [47, 122] [47, 97]) 6,
      inode_name (twoChildImage [47, 122] [47, 97]) 7,
      inode_flags (twoChildImage [47, 122] [47, 97]) 6,
      inode_flags (twoChildImage [47, 122] [47, 97]) 7)
      = ([47, 122], [47, 97], DIR_WRITE, DIR_WRITE) ∧
    find_parent_inode (twoChildImage [47, 122] [47, 97]) pathAB 1 = .ok none ∧
    find_parent_inode (twoChildImage [47, 122] [47, 97]) pathAB 0 = .ok none ∧
    find_parent_inode (twoChildImage [47, 47, 122] [47, 47, 97]) pathAB 1 = .ok none ∧
    find_parent_inode (twoChildImage [47, 47, 122] [47, 47, 97]) pathAB 0 = .ok none ∧
    find_parent_inode (twoChildImage [47, 47, 97] [47, 47, 122]) pathAB 1 = .ok (some 6) := by
  decide

set_option maxRecDepth 100000 in
/-- C12 (fails on the code): on the freshly formatted filesystem of the testing `main`
the root has no entries, and `find_parent_inode("/a/b", w)` returns nothing for either
value of w: the `for` loop is skipped, `j` never grows, and every pass appends "/a" to
`current_name` until the 255-byte buffer overflows. -/
theorem C12_fresh_lookup_overflows_buffer :
    mainFS.map (fun s => inode_file_size s 1) = .ok 0 ∧
    (mainFS >>= fun s => find_parent_inode s pathAB 0) = .error .pathBuffer ∧
    (mainFS >>= fun s => find_parent_inode s pathAB 1) = .error .pathBuffer := by
  decide

set_option maxRecDepth 100000 in
/-- C13 (as stated, fails): on the freshly formatted filesystem of the testing `main`,
`find_parent_inode` returns the root inode (block 1) for the empty path, for "/" and
for the path "ab" that does not start with "/". -/
theorem C13_counterexample :
    (mainFS >>= fun s => find_parent_inode s [] 1) = .ok (some 1) ∧
    (mainFS >>= fun s => find_parent_inode s [47] 1) = .ok (some 1) ∧
    (mainFS >>= fun s => find_parent_inode s [97, 98] 1) = .ok (some 1) ∧
    (mainFS >>= fun s => find_parent_inode s [] 0) = .ok (some 1) ∧
    (mainFS >>= fun s => find_parent_inode s [47] 0) = .ok (some 1) ∧
    (mainFS >>= fun s => find_parent_inode s [97, 98] 0) = .ok (some 1) := by
  decide

/-- C13 (amended): `find_parent_inode` does not validate the path.  In every state with
a root block, for the empty path, for "/" and for every other path with at most one
"/" (so for every path without "/"), it returns the root inode when the root is not a
file and, if writeable is non-zero, has flags DIR_WRITE; otherwise it returns `NULL`. -/
theorem C13_short_paths_give_root (s : FS) (path : List Nat) (writeable : Int)
    (hn : 1 < s.nblocks) (h : char_count path 47 ≤ 1) :
    find_parent_inode s path writeable
      = .ok (if dir_usable s 1 writeable = true then some 1 else none) ∧
    char_count [] 47 = 0 ∧ char_count [47] 47 = 1 ∧
    (∀ p : List Nat, 47 ∉ p → char_count p 47 = 0) := by
  refine ⟨?_, by decide, by decide, ?_⟩
  · unfold find_parent_inode
    rw [if_neg (by omega), fpi_loop.eq_2, if_pos h]
  · intro p hp
    unfold char_count
    rw [List.count_eq_zero]
    intro hmem
    rw [List.mem_append] at hmem
    rcases hmem with hmem | hmem
    · exact hp hmem
    · simp at hmem

set_option maxRecDepth 100000 in
theorem C13_short_paths_give_root_witness :
    find_parent_inode (formatted zeroInit testName 32) [] 1
      = .ok (if dir_usable (formatted zeroInit testName 32) 1 1 = true then some 1 else none) ∧
    char_count [] 47 = 0 ∧ char_count [47] 47 = 1 ∧
    (∀ p : List Nat, 47 ∉ p → char_count p 47 = 0) :=
  C13_short_paths_give_root (formatted zeroInit testName 32) [] 1 (by decide) (by decide)

set_option maxRecDepth 100000 in
/-- C15 (fails on the code): after `format`, for N = 32 as for N = 6048, the root
inode's indirect_refs is 0, and `get_subdirs(root)` is block 0, the superblock. -/
theorem C15_root_children_array_is_superblock :
    mainFS.map (fun s => (inode_indirect_refs s 1, get_subdirs s 1)) = .ok (0, .ok 0) ∧
    (format zeroInit testName 1 6048).map (fun s => (inode_indirect_refs s 1, get_subdirs s 1))
      = .ok (0, .ok 0) := by
  decide

/-- On a freshly formatted partition a pass of the lookup loop at the root either faults
or comes back to the loop test at the root with `j` and `next_dir` as they were. -/
theorem fpi_body_fresh_root (init : Nat → Nat → Nat) (name : List Nat) (N : Int)
    (h1 : 32 ≤ N) (writeable : Int) (w : Walk) (hw : w.current_dir = 1) :
    (∃ f, fpi_body (formatted init name N) writeable w = .ret (.error f)) ∨
    (∃ w1, fpi_body (formatted init name N) writeable w = .again w1 ∧
      w1.current_dir = 1 ∧ w1.j = w.j) := by
  have hsub : get_subdirs (formatted init name N) 1 = .ok 0 := by
    unfold get_subdirs blockAt
    rw [inode_indirect_formatted, nblocks_formatted, if_pos (by omega)]
    rfl
  have hsize : ¬ (0 < inode_file_size (formatted init name N) 1) := by
    rw [inode_file_size_formatted]; omega
  have huse : dir_usable (formatted init name N) 1 writeable = true := by
    unfold dir_usable
    rw [inode_flags_formatted]
    simp [DIR_WRITE, FILE_READ, FILE_WRITE]
  unfold fpi_body
  by_cases hb1 : 255 < w.current_name.length + 1 + 1
  · rw [if_pos hb1]; exact Or.inl ⟨_, rfl⟩
  · rw [if_neg hb1]
    cases w.toks with
    | nil => exact Or.inl ⟨_, rfl⟩
    | cons next_dir rest =>
      dsimp only
      by_cases hb2 : 255 < w.current_name.length + 1 + next_dir.length + 1
      · rw [if_pos hb2]; exact Or.inl ⟨_, rfl⟩
      · rw [if_neg hb2, hw, hsub]
        dsimp only
        rw [if_neg hsize, if_pos huse]
        exact Or.inr ⟨_, rfl, rfl, rfl⟩

theorem fpi_loop_fresh_root (init : Nat → Nat → Nat) (name : List Nat) (N : Int)
    (h1 : 32 ≤ N) (writeable : Int) (depth : Nat) :
    ∀ (fuel : Nat) (w : Walk), w.current_dir = 1 → w.j < depth →
      ∃ f, fpi_loop (formatted init name N) writeable depth fuel w = .error f := by
  intro fuel
  induction fuel with
  | zero =>
    intro w _ hj
    rw [fpi_loop, if_neg (by omega)]
    exact ⟨_, rfl⟩
  | succ n ih =>
    intro w hw hj
    rw [fpi_loop.eq_2, if_neg (by omega)]
    rcases fpi_body_fresh_root init name N h1 writeable w hw with ⟨f, hb⟩ | ⟨w1, hb, hd, hj1⟩
    · rw [hb]; exact ⟨f, rfl⟩
    · rw [hb]
      exact ih w1 hd (by omega)

/-- On every freshly formatted partition, `find_parent_inode` returns nothing, inode or
`NULL`, for any path with two or more "/": the lookup ends in a fault. -/
theorem fresh_lookup_never_returns (init : Nat → Nat → Nat) (name : List Nat) (N : Int)
    (h1 : 32 ≤ N) (path : List Nat) (writeable : Int) (hp : 2 ≤ char_count path 47) :
    ∃ f, find_parent_inode (formatted init name N) path writeable = .error f := by
  unfold find_parent_inode
  rw [nblocks_formatted, if_neg (by omega)]
  exact fpi_loop_fresh_root init name N h1 writeable _ 255 _ rfl (by dsimp only; omega)

/-! ## Claims about `rmdir` and the size check of `format` -/

set_option maxRecDepth 100000 in
/-- C16 (fails on the code): "/d" is an existing, empty, non-root directory (inode in
block 6, children array in block 7, entry 6 in the root's children array), yet after
`rmdir("/d")` the entry is still there, the root's file_size is still 1, blocks 6 and 7
are still marked used and num_free_blocks is still 27: `rmdir` only looks the parent up. -/
theorem C16_rmdir_changes_nothing :
    (inode_name oneDirImage 6, inode_flags oneDirImage 6, inode_file_size oneDirImage 6,
      inode_indirect_refs oneDirImage 6) = (pathD, DIR_WRITE, 0, 7) ∧
    (get_subdirs oneDirImage 1, rd32 oneDirImage 5 0, inode_file_size oneDirImage 1)
      = (.ok 5, 6, 1) ∧
    (bitSet oneDirImage 6, bitSet oneDirImage 7, num_free_blocks oneDirImage)
      = (true, true, 27) ∧
    (rmdir SUCCESS pathD oneDirImage).map
        (fun r => (rd32 r.2 5 0, inode_file_size r.2 1, bitSet r.2 6, bitSet r.2 7,
          num_free_blocks r.2)) = .ok (6, 1, true, true, 27) := by
  decide

theorem mem_fill_other (s : FS) (b o len v b1 o1 : Nat)
    (h : b1 ≠ b ∨ o1 < o ∨ o + len ≤ o1) : (fill s b o len v).mem b1 o1 = s.mem b1 o1 := by
  unfold fill; dsimp only
  rw [if_neg (by omega)]

theorem mem_wrBytes_other (s : FS) (b o : Nat) (l : List Nat) (b1 o1 : Nat)
    (h : b1 ≠ b ∨ o1 < o ∨ o + l.length ≤ o1) : (wrBytes s b o l).mem b1 o1 = s.mem b1 o1 := by
  unfold wrBytes; dsimp only
  rw [if_neg (by omega)]

/-- What `format` writes lies in the first 1024 bytes of blocks 0 and 1. -/
theorem mem_formatted_other (init : Nat → Nat → Nat) (name : List Nat) (N : Int)
    (hname : name.length ≤ 254) (b o : Nat) (h : 2 ≤ b ∨ 1024 ≤ o) :
    (formatted init name N).mem b o = init b o := by
  unfold formatted
  dsimp only
  rw [mem_wr32_other _ _ _ _ _ _ (by omega), mem_wr32_other _ _ _ _ _ _ (by omega),
    mem_fill_other _ _ _ _ _ _ _ (by omega), mem_wr8_other _ _ _ _ _ _ (by omega),
    mem_wrBytes_other _ _ _ _ _ _ (by simp only [List.length_cons, List.length_nil]; omega),
    mem_wr8_other _ _ _ _ _ _ (by omega),
    mem_fill_other _ _ _ _ _ _ _ (by omega), mem_wr32_other _ _ _ _ _ _ (by omega),
    mem_wr32_other _ _ _ _ _ _ (by omega), mem_wr8_other _ _ _ _ _ _ (by omega),
    mem_wr32_other _ _ _ _ _ _ (by omega),
    mem_wrBytes_other _ _ _ _ _ _
      (by simp only [List.length_append, List.length_singleton]; omega)]

/-- C17: `format(name, flags, num_blocks)` fails its assertion if and only if
num_blocks < 32 or num_blocks > 6048; for every num_blocks in [32, 6048] (and a name
that fits the name field) it succeeds, and what it returns is a partition of exactly
num_blocks blocks in which it has written only within the first 1024 bytes of blocks
0 and 1. -/
theorem C17_format_size_check (init : Nat → Nat → Nat) (name : List Nat) (flags : Nat)
    (N : Int) :
    (format init name flags N = .error .assertion ↔ (N < 32 ∨ 6048 < N)) ∧
    (32 ≤ N → N ≤ 6048 → name.length ≤ 254 →
      ∃ s, format init name flags N = .ok s ∧ (s.nblocks : Int) = N) ∧
    (∀ s, format init name flags N = .ok s →
      32 ≤ N ∧ N ≤ 6048 ∧ (s.nblocks : Int) = N ∧
      ∀ b o, 2 ≤ b ∨ BLOCK_SIZE ≤ o → s.mem b o = init b o) := by
  refine ⟨⟨?_, ?_⟩, ?_, ?_⟩
  · intro h
    by_contra hcon
    have h1 : 32 ≤ N := by omega
    have h2 : N ≤ 6048 := by omega
    by_cases hname : name.length ≤ 254
    · rw [format_eq init name flags N hname h1 h2] at h
      exact Except.noConfusion h
    · unfold format strcpy_name at h
      rw [if_neg (by omega), if_neg (by omega), if_pos (by omega)] at h
      exact Fault.noConfusion (Except.error.inj h)
  · intro h
    unfold format
    by_cases h1 : N < 32
    · rw [if_pos h1]
    · rw [if_neg h1, if_pos (by omega)]
  · intro h1 h2 hname
    refine ⟨_, format_eq init name flags N hname h1 h2, ?_⟩
    rw [nblocks_formatted]
    omega
  · intro s hs
    have hr : 32 ≤ N ∧ N ≤ 6048 := by
      unfold format at hs
      by_cases h1 : N < 32
      · rw [if_pos h1] at hs; exact Except.noConfusion hs
      · rw [if_neg h1] at hs
        by_cases h2 : 6048 < N
        · rw [if_pos h2] at hs; exact Except.noConfusion hs
        · omega
    obtain ⟨hname, hs2⟩ := format_ok_inv init name flags N s hr.1 hr.2 hs
    refine ⟨hr.1, hr.2, ?_, ?_⟩
    · rw [hs2, nblocks_formatted]; omega
    · intro b o hbo
      rw [hs2]
      exact mem_formatted_other init name N hname b o hbo

theorem C17_format_size_check_witness :
    (format zeroInit testName 1 40 = .error .assertion ↔ ((40 : Int) < 32 ∨ 6048 < (40 : Int))) ∧
    (∃ s, format zeroInit testName 1 40 = .ok s ∧ (s.nblocks : Int) = 40) ∧
    (∀ s, format zeroInit testName 1 40 = .ok s →
      32 ≤ (40 : Int) ∧ (40 : Int) ≤ 6048 ∧ (s.nblocks : Int) = 40 ∧
      ∀ b o, 2 ≤ b ∨ BLOCK_SIZE ≤ o → s.mem b o = zeroInit b o) :=
  ⟨(C17_format_size_check zeroInit testName 1 40).1,
    (C17_format_size_check zeroInit testName 1 40).2.1 (by decide) (by decide) (by decide),
    (C17_format_size_check zeroInit testName 1 40).2.2⟩

/-! ## Claims about what `mkdir` does to the superblock -/

set_option maxRecDepth 100000 in
/-- C19 (fails on the code): after `format("", 1, 32)` the superblock name is empty;
`mkdir("/test", DIR_WRITE)` returns SUCCESS and the name is then the one-byte string
with code 2: the root's children array is block 0 and the new block number goes into
its first zero entry, bytes 0..3 of the name.  With the name "Test Superblock" it goes
into bytes 16..19 of the name field. -/
theorem C19_mkdir_writes_into_superblock_name :
    (format zeroInit [] 1 32).map (fun s => (sb_name s, rd8 s 0 0, get_subdirs s 1))
      = .ok ([], 0, .ok 0) ∧
    (format zeroInit [] 1 32 >>= mkdir true 0 pathTest DIR_WRITE).map
        (fun r => (r.1, sb_name r.2, rd8 r.2 0 0)) = .ok (SUCCESS, [2], 2) ∧
    mainFS.map (fun s => rd8 s 0 16) = .ok 0 ∧
    (mainFS >>= mkdir true 0 pathTest DIR_WRITE).map (fun r => (r.1, rd8 r.2 0 16))
      = .ok (SUCCESS, 2) := by
  decide

set_option maxRecDepth 100000 in
/-- C20 (fails on the code): format a 40-block partition with a 254-byte name.  The
free-count invariant holds, the root resolves as parent of "/test", blocks 2..39 are
free.  `mkdir("/test", DIR_WRITE)` returns SUCCESS, marks blocks 2 and 3 used and lowers
num_free_blocks from 38 to 36, but it also sets bitmap bit 38: the first zero entry of
the root's children array, which is block 0, is entry 68, bytes 4..7 of `block_map`,
and the block number 2 stored there is the mask of block 38. -/
theorem C20_mkdir_sets_a_third_bit :
    FreeCountInv (formatted zeroInit name254 40) ∧
    (format zeroInit name254 1 40).map
        (fun s => (find_parent_inode s pathTest 1, num_free_blocks s,
          (List.range 48).filter (bitSet s))) = .ok (.ok (some 1), 38, [0, 1]) ∧
    (format zeroInit name254 1 40 >>= mkdir true 0 pathTest DIR_WRITE).map
        (fun r => (r.1, num_free_blocks r.2, (List.range 48).filter (bitSet r.2)))
      = .ok (SUCCESS, 36, [0, 1, 2, 3, 38]) ∧
    (format zeroInit name254 1 40 >>= mkdir true 0 pathTest DIR_WRITE).map
        (fun r => rd32 r.2 0 272) = .ok 2 := by
  refine ⟨inv_formatted zeroInit name254 40 (by decide) (by decide), ?_, ?_, ?_⟩ <;> decide

/-! ## dump and load -/

theorem dump_length (m : Nat → Nat) :
    (dump_to_disk m).length = (rd32At m 256).toNat * 1024 := by
  unfold dump_to_disk
  rw [List.length_map, List.length_range]

theorem dump_getD (m : Nat → Nat) (a : Nat) (h : a < (rd32At m 256).toNat * 1024) :
    (dump_to_disk m).getD a 0 = m a % 256 := by
  unfold dump_to_disk
  rw [List.getD_eq_getElem?_getD, List.getElem?_map, List.getElem?_range h]
  rfl

theorem rd32At_congr (m1 m2 : Nat → Nat)
    (h : ∀ k, k < 4 → m1 (256 + k) % 256 = m2 (256 + k) % 256) :
    rd32At m1 256 = rd32At m2 256 := by
  unfold rd32At
  have h0 := h 0 (by omega)
  have h1 := h 1 (by omega)
  have h2 := h 2 (by omega)
  have h3 := h 3 (by omega)
  simp only [Nat.add_zero] at h0
  rw [h0, h1, h2, h3]

/-- On one contiguous image with a block count n, 1 <= n < 2^21, at offset 256, load
gives back exactly the n * 1024 bytes dump wrote, which are the bytes of the image. -/
theorem load_dump_flat (m : Nat → Nat) (h1 : 1 ≤ rd32At m 256) (h2 : rd32At m 256 < 2097152) :
    load_from_disk (dump_to_disk m) = .image (dump_to_disk m) ∧
    dump_to_disk m = (List.range ((rd32At m 256).toNat * 1024)).map (fun a => m a % 256) := by
  refine ⟨?_, rfl⟩
  have hlen := dump_length m
  have hn : rd32At (fun a => (dump_to_disk m).getD a 0) 256 = rd32At m 256 := by
    apply rd32At_congr
    intro k hk
    dsimp only
    rw [dump_getD m _ (by omega)]
    omega
  unfold load_from_disk
  rw [if_neg (by omega)]
  dsimp only
  rw [hn, if_neg (by omega), if_neg (by omega), ← hlen, List.take_length]

theorem rd32At_contiguous (s : FS) : rd32At (contiguous s) 256 = num_blocks s := by
  unfold rd32At contiguous num_blocks rd32
  have e : ∀ k, k < 4 → rd8 s ((256 + k) / 1024) ((256 + k) % 1024) % 256 = rd8 s 0 (256 + k) := by
    intro k hk
    have e1 : (256 + k) / 1024 = 0 := by omega
    have e2 : (256 + k) % 1024 = 256 + k := by omega
    rw [e1, e2]
    exact Nat.mod_eq_of_lt (rd8_lt _ _ _)
  have h0 := e 0 (by omega)
  have h1 := e 1 (by omega)
  have h2 := e 2 (by omega)
  have h3 := e 3 (by omega)
  simp only [Nat.add_zero] at h0
  rw [h0, h1, h2, h3]

/-- The round trip on the partition laid out as one contiguous image: after `format`,
load of dump gives the N * 1024 bytes in which bytes [1024 k, 1024 k + 1024) are
block k. -/
theorem load_dump_contiguous (init : Nat → Nat → Nat) (name : List Nat) (N : Int)
    (h1 : 32 ≤ N) (h2 : N ≤ 6048) :
    load_from_disk (dump_to_disk (contiguous (formatted init name N)))
      = .image ((List.range (N.toNat * 1024)).map
          (fun a => rd8 (formatted init name N) (a / 1024) (a % 1024))) := by
  have hn : rd32At (contiguous (formatted init name N)) 256 = N := by
    rw [rd32At_contiguous, num_blocks_formatted _ _ _ h1 h2]
  obtain ⟨e1, e2⟩ := load_dump_flat (contiguous (formatted init name N))
    (by rw [hn]; omega) (by rw [hn]; omega)
  have hmap : (List.range (N.toNat * 1024)).map
        (fun a => contiguous (formatted init name N) a % 256)
      = (List.range (N.toNat * 1024)).map
        (fun a => rd8 (formatted init name N) (a / 1024) (a % 1024)) :=
    List.map_congr_left (fun a _ => Nat.mod_eq_of_lt (rd8_lt _ _ _))
  rw [e1, e2, hn, hmap]

set_option maxRecDepth 100000 in
/-- C18 (fails on the code): `format` returns `fs_partition`, a table of pointers to
40 separately allocated blocks, and `dump_to_disk` casts what it is given to
`superblock*` and `char*`.  With the blocks at 0x5555555593f0 + 1040 k it takes the low
half of the pointer to block 32 for num_blocks and writes 1431705072 * 1024 bytes
starting with the bytes of the pointer to block 0 (0xf0, 0x93, ...), not the
40 * 1024 bytes of the blocks, whose first byte is the "T" of the superblock name. -/
theorem C18_dump_writes_the_pointer_table :
    rd32At (pointerTable heapAddr) 256 = 1431705072 ∧
    (dump_to_disk (pointerTable heapAddr)).length = 1431705072 * 1024 ∧
    (dump_to_disk (pointerTable heapAddr)).length ≠ 40 * 1024 ∧
    (dump_to_disk (pointerTable heapAddr)).getD 0 0 = 240 ∧
    (dump_to_disk (pointerTable heapAddr)).getD 1 0 = 147 ∧
    (format zeroInit testName 1 40).map (fun s => (num_blocks s, rd8 s 0 0, rd8 s 0 1))
      = .ok (40, 84, 101) := by
  have hn : rd32At (pointerTable heapAddr) 256 = 1431705072 := by decide
  have hl := dump_length (pointerTable heapAddr)
  rw [hn] at hl
  refine ⟨hn, hl, ?_, ?_, ?_, by decide⟩
  · rw [hl]; decide
  · rw [dump_getD _ _ (by rw [hn]; decide)]; decide
  · rw [dump_getD _ _ (by rw [hn]; decide)]; decide

end Filesys
